import Mathlib

/-!
Shallow embedding of the seata-go-client orchestration core.

The definitions below are translated from the Go sources of the repository:
`client.go`, `transaction.go`, `tcc.go`, `retry.go` and the Saga manager
file (`SagaManager`, `SagaWorkflow.Validate`, ...).  Remote calls are
modelled by environments that supply, per call site, the outcome the Go
code would observe (an error value or a successful reply); orchestrator
functions additionally return the trace of remote calls they issued.
Machine time is modelled by natural-number instants, durations by naturals,
and the float arithmetic of the backoff computation by rationals.
-/

namespace Seata

/-- Go `error` values as built by this code base: `fmt.Errorf` with a plain
message, `fmt.Errorf("...: %w", err)` wrapping a cause, `ctx.Err()` for a
cancelled context, and the aggregate `fmt.Errorf("msg: %v", errs)` used by
the Saga compensation collector. -/
inductive GoError where
  | msg (s : String)
  | wrap (s : String) (cause : GoError)
  | ctxCanceled
  | agg (s : String) (errs : List GoError)

/-- Transaction mode constant `ModeSaga = "saga"`. -/
def ModeSaga : String := "saga"

/-- Transaction mode constant `ModeTCC = "tcc"`. -/
def ModeTCC : String := "tcc"

/-- Status constant `StatusSubmitted = "SUBMITTED"`. -/
def StatusSubmitted : String := "SUBMITTED"

/-- Status constant `StatusCommitted = "COMMITTED"`. -/
def StatusCommitted : String := "COMMITTED"

/-- Status constant `StatusAborted = "ABORTED"`. -/
def StatusAborted : String := "ABORTED"

/-- Branch status constant `BranchStatusFailed = "FAILED"`. -/
def BranchStatusFailed : String := "FAILED"

/-- Model of `Branch` from `transaction.go`. -/
structure Branch where
  BranchID : String
  Action : String
  Status : String
deriving DecidableEq, Repr

/-- Model of `SagaStep` from the types file. -/
structure SagaStep where
  BranchID : String
  Action : String
  Compensate : String
deriving DecidableEq, Repr

/-- Model of `SagaWorkflow` from the types file. -/
structure SagaWorkflow where
  Steps : List SagaStep
deriving DecidableEq, Repr

/-- Model of `TCCStep` from the types file. -/
structure TCCStep where
  BranchID : String
  Try : String
  Confirm : String
  Cancel : String
deriving DecidableEq, Repr

/-- Model of `TCCWorkflow` from the types file. -/
structure TCCWorkflow where
  Steps : List TCCStep
deriving DecidableEq, Repr

/-- Loop body of `SagaWorkflow.Validate`: walks the steps in order carrying
the set of already-seen branch ids (the Go `seen` map, modelled as the list
of ids inserted so far). -/
def sagaValidateLoop : List SagaStep → List String → Option GoError
  | [], _ => none
  | s :: rest, seen =>
    if s.BranchID = "" then some (.msg "branch ID cannot be empty")
    else if s.Action = "" then some (.msg "action cannot be empty")
    else if seen.contains s.BranchID then
      some (.msg ("duplicate branch ID: " ++ s.BranchID))
    else sagaValidateLoop rest (s.BranchID :: seen)

/-- Model of `SagaWorkflow.Validate` from the Saga manager file: `none` means the Go
method returned `nil`. -/
def SagaWorkflow.Validate (sw : SagaWorkflow) : Option GoError :=
  if sw.Steps = [] then some (.msg "saga workflow must have at least one step")
  else sagaValidateLoop sw.Steps []

/-- Loop body of `TCCWorkflow.Validate`. -/
def tccValidateLoop : List TCCStep → List String → Option GoError
  | [], _ => none
  | s :: rest, seen =>
    if s.BranchID = "" then some (.msg "branch ID cannot be empty")
    else if s.Try = "" then some (.msg "try action cannot be empty")
    else if s.Confirm = "" then some (.msg "confirm action cannot be empty")
    else if s.Cancel = "" then some (.msg "cancel action cannot be empty")
    else if seen.contains s.BranchID then
      some (.msg ("duplicate branch ID: " ++ s.BranchID))
    else tccValidateLoop rest (s.BranchID :: seen)

/-- Model of `TCCWorkflow.Validate` from `tcc.go`. -/
def TCCWorkflow.Validate (tw : TCCWorkflow) : Option GoError :=
  if tw.Steps = [] then some (.msg "TCC workflow must have at least one step")
  else tccValidateLoop tw.Steps []

/-- A Saga workflow is well formed when it is non-empty, every required
field is non-empty, and the branch ids are pairwise distinct. -/
def sagaWellFormed (sw : SagaWorkflow) : Prop :=
  sw.Steps ≠ [] ∧ (∀ s ∈ sw.Steps, s.BranchID ≠ "" ∧ s.Action ≠ "") ∧
    (sw.Steps.map SagaStep.BranchID).Nodup

/-- A TCC workflow is well formed when it is non-empty, every required
field is non-empty, and the branch ids are pairwise distinct. -/
def tccWellFormed (tw : TCCWorkflow) : Prop :=
  tw.Steps ≠ [] ∧
    (∀ s ∈ tw.Steps, s.BranchID ≠ "" ∧ s.Try ≠ "" ∧ s.Confirm ≠ "" ∧ s.Cancel ≠ "") ∧
    (tw.Steps.map TCCStep.BranchID).Nodup

/-! ## Transaction handle (`transaction.go`) -/

/-- Outcome of one HTTP round trip as seen by a phase method of
`Transaction`: either the resty call itself returned an error, or a reply
with a status code and body arrived. -/
inductive RemoteResult where
  | transportErr (e : GoError)
  | http (status : Nat) (body : String)

/-- Model of `Transaction` from `transaction.go`: id, mode and payload are set at
creation, `branches` is the locally accumulated branch list. -/
structure Transaction where
  gid : String
  mode : String
  payload : List Nat
  branches : List Branch

/-- Shared shape of the phase methods other than `AddBranch`: a transport
error is wrapped with the phase message, a non-200 status becomes a status
error with the same message, a 200 reply is success.  Mirrors the
`if err != nil` / `if resp.StatusCode() != 200` pattern of every method in
`transaction.go`. -/
def phaseResult (m : String) (resp : RemoteResult) : Option GoError :=
  match resp with
  | .transportErr e => some (.wrap m e)
  | .http status body =>
    if status ≠ 200 then
      some (.msg (m ++ ": status " ++ toString status ++ ", body: " ++ body))
    else none

/-- Model of `Transaction.AddBranch`: posts `/api/branch/add`; only on a 200 reply
is the branch appended to the local list (with its `Status` left at the Go
zero value). -/
def Transaction.AddBranch (tx : Transaction) (branchID action : String)
    (resp : RemoteResult) : Option GoError × Transaction :=
  match phaseResult "failed to add branch" resp with
  | some e => (some e, tx)
  | none =>
    (none, { tx with branches :=
      tx.branches ++ [{ BranchID := branchID, Action := action, Status := "" }] })

/-- Model of `Transaction.Submit`: posts `/api/submit`; never touches local state. -/
def Transaction.Submit (tx : Transaction) (resp : RemoteResult) :
    Option GoError × Transaction :=
  (phaseResult "failed to submit transaction" resp, tx)

/-- Model of `Transaction.Abort`: posts `/api/abort`; never touches local state. -/
def Transaction.Abort (tx : Transaction) (resp : RemoteResult) :
    Option GoError × Transaction :=
  (phaseResult "failed to abort transaction" resp, tx)

/-- Model of `Transaction.Try`: posts `/api/branch/try`; never touches local state
(the branch list is not appended to, unlike `AddBranch`). -/
def Transaction.Try (tx : Transaction) (_branchID _action : String)
    (_payload : List Nat) (resp : RemoteResult) : Option GoError × Transaction :=
  (phaseResult "failed to execute try phase" resp, tx)

/-- Model of `Transaction.Confirm`: posts `/api/branch/confirm`; read-only locally. -/
def Transaction.Confirm (tx : Transaction) (_branchID : String)
    (resp : RemoteResult) : Option GoError × Transaction :=
  (phaseResult "failed to execute confirm phase" resp, tx)

/-- Model of `Transaction.Cancel`: posts `/api/branch/cancel`; read-only locally. -/
def Transaction.Cancel (tx : Transaction) (_branchID : String)
    (resp : RemoteResult) : Option GoError × Transaction :=
  (phaseResult "failed to execute cancel phase" resp, tx)

/-- Model of `Transaction.BranchSucceed`: posts `/api/branch/succeed`; read-only
locally. -/
def Transaction.BranchSucceed (tx : Transaction) (_branchID : String)
    (resp : RemoteResult) : Option GoError × Transaction :=
  (phaseResult "failed to mark branch as successful" resp, tx)

/-- Model of `Transaction.BranchFail`: posts `/api/branch/fail`; read-only locally. -/
def Transaction.BranchFail (tx : Transaction) (_branchID : String)
    (resp : RemoteResult) : Option GoError × Transaction :=
  (phaseResult "failed to mark branch as failed" resp, tx)

/-- Model of `TransactionInfo` from `transaction.go` (the fields the orchestrators
read). -/
structure TransactionInfo where
  GID : String
  Mode : String
  Status : String
  Branches : List Branch

/-- Model of `Transaction.GetInfo` delegates to `Client.GetTransaction` and only
returns the fetched snapshot; the local handle is untouched. -/
def Transaction.GetInfo (tx : Transaction)
    (fetched : GoError ⊕ TransactionInfo) :
    (GoError ⊕ TransactionInfo) × Transaction :=
  (fetched, tx)

/-! ## Retry executor (`retry.go`) -/

/-- Model of `RetryConfig` from the types file.  `RetryInterval` and
`BackoffFactor` take part only in the backoff computation, which is
modelled separately over the rationals. -/
structure RetryConfig where
  MaxRetries : Nat

/-- The cancellation observations a context delivers to
`ExecuteWithRetry`: the loop consults the context at exactly two kinds of
checkpoint, the `select` on `ctx.Done()` before attempt `i` starts and the
`select` racing `ctx.Done()` against `time.After` during the backoff wait
that follows attempt `i`. -/
structure RetryCtx where
  cancelBefore : Nat → Bool
  cancelDuringWait : Nat → Bool

/-- The never-cancelled context. -/
def RetryCtx.never : RetryCtx :=
  { cancelBefore := fun _ => false, cancelDuringWait := fun _ => false }

/-- Loop of `RetryManager.ExecuteWithRetry`.  `attempt` is the current
attempt index (which also counts the operation invocations made so far,
one per earlier attempt) and `left` is `MaxRetries - attempt`, the number
of attempts still allowed after this one.  The operation is modelled as a
function from invocation index to its result.  Returns the function result
together with the total number of operation invocations. -/
def retryLoop (ctx : RetryCtx) (op : Nat → Option GoError) (maxRetries : Nat) :
    Nat → Nat → Option GoError × Nat
  | attempt, left =>
    if ctx.cancelBefore attempt then (some .ctxCanceled, attempt)
    else
      match op attempt with
      | none => (none, attempt + 1)
      | some e =>
        match left with
        | 0 =>
          (some (.wrap ("operation failed after " ++ toString maxRetries ++ " retries") e),
            attempt + 1)
        | left' + 1 =>
          if ctx.cancelDuringWait attempt then (some .ctxCanceled, attempt + 1)
          else retryLoop ctx op maxRetries (attempt + 1) left'

/-- Model of `RetryManager.ExecuteWithRetry`: runs the operation up to
`MaxRetries + 1` times, starting at attempt index 0. -/
def ExecuteWithRetry (cfg : RetryConfig) (ctx : RetryCtx)
    (op : Nat → Option GoError) : Option GoError × Nat :=
  retryLoop ctx op cfg.MaxRetries 0 cfg.MaxRetries

/-- The exponential part of `RetryManager.calculateBackoff`:
`baseDelay * math.Pow(BackoffFactor, float64(attempt))`, over the
rationals. -/
def exponentialDelay (retryInterval backoffFactor : ℚ) (attempt : Nat) : ℚ :=
  retryInterval * backoffFactor ^ attempt

/-- The jitter term of `calculateBackoff`:
`expDelay * 0.1 * (0.5 - math.Mod(float64(time.Now().UnixNano()), 1.0))`,
with the time-dependent `math.Mod` value abstracted as `m ∈ [0, 1)`. -/
def backoffJitter (expDelay m : ℚ) : ℚ :=
  expDelay * (1 / 10) * (1 / 2 - m)

/-- Model of `RetryManager.calculateBackoff`: exponential delay plus jitter. -/
def calculateBackoff (retryInterval backoffFactor : ℚ) (attempt : Nat)
    (m : ℚ) : ℚ :=
  exponentialDelay retryInterval backoffFactor attempt +
    backoffJitter (exponentialDelay retryInterval backoffFactor attempt) m

/-! ## Circuit breaker (`retry.go`) -/

/-- Model of `CircuitBreakerState` from `retry.go`. -/
inductive CircuitBreakerState where
  | Closed
  | Open
  | HalfOpen
deriving DecidableEq, Repr

/-- Model of `CircuitBreaker` together with its `CircuitBreakerConfig` fields.
Instants (`lastFailureTime`, the `now` arguments) and the
`RecoveryTimeout` duration are naturals; `time.Since(t) > d` at instant
`now` is `d < now - t`. -/
structure CircuitBreaker where
  FailureThreshold : Nat
  RecoveryTimeout : Nat
  failureCount : Nat
  lastFailureTime : Nat
  state : CircuitBreakerState
deriving DecidableEq, Repr

/-- Model of `NewCircuitBreaker`: closed, zero counters. -/
def NewCircuitBreaker (threshold recovery : Nat) : CircuitBreaker :=
  { FailureThreshold := threshold, RecoveryTimeout := recovery,
    failureCount := 0, lastFailureTime := 0, state := .Closed }

/-- Model of `CircuitBreaker.recordFailure` at instant `now`. -/
def recordFailure (cb : CircuitBreaker) (now : Nat) : CircuitBreaker :=
  let cb := { cb with failureCount := cb.failureCount + 1, lastFailureTime := now }
  if cb.FailureThreshold ≤ cb.failureCount then { cb with state := .Open } else cb

/-- Model of `CircuitBreaker.recordSuccess`. -/
def recordSuccess (cb : CircuitBreaker) : CircuitBreaker :=
  { cb with failureCount := 0, state := .Closed }

/-- Model of `CircuitBreaker.Execute` at instant `now`, with the wrapped operation
modelled by the result it would produce if invoked.  Returns the call
result, the updated breaker, and whether the operation was invoked. -/
def CircuitBreaker.Execute (cb : CircuitBreaker) (now : Nat)
    (opResult : Option GoError) : Option GoError × CircuitBreaker × Bool :=
  let gate : Option CircuitBreaker :=
    if cb.state = .Open then
      if cb.RecoveryTimeout < now - cb.lastFailureTime then
        some { cb with state := .HalfOpen }
      else none
    else some cb
  match gate with
  | none => (some (.msg "circuit breaker is open"), cb, false)
  | some cb' =>
    match opResult with
    | some e => (some e, recordFailure cb' now, true)
    | none => (none, recordSuccess cb', true)

/-- Folds a sequence of failing `Execute` calls (instant and operation
error per call) over a breaker. -/
def execFailures (cb : CircuitBreaker) (calls : List (Nat × GoError)) :
    CircuitBreaker :=
  calls.foldl (fun c p => (CircuitBreaker.Execute c p.1 (some p.2)).2.1) cb

/-! ## Saga orchestrator (`SagaManager`) -/

/-- One remote call issued by an orchestrator, as recorded in a trace. -/
inductive Call where
  | startTx
  | addBranch (branchID : String)
  | abortTx
  | submitTx
  | getInfo
  | tryB (branchID : String)
  | confirmB (branchID : String)
  | cancelB (branchID : String)
deriving DecidableEq, Repr

/-- One `GetInfo` poll outcome. -/
inductive GetInfoResult where
  | err (e : GoError)
  | ok (status : String) (branches : List Branch)

/-- Environment of a Saga execution: the error (if any) each remote call
would come back with, keyed by call site — `startErr` for
`StartTransaction`, `addErr i` for the `AddBranch` of step `i`,
`abortErr` for the best-effort `Abort` (its value is discarded by the Go
code), `submitErr` for `Submit`, and `infos k` for the `GetInfo` of poll
tick `k`. -/
structure SagaEnv where
  startErr : Option GoError
  addErr : Nat → Option GoError
  abortErr : Option GoError
  submitErr : Option GoError
  infos : Nat → GetInfoResult

/-- The `AddBranch` loop shared by `ExecuteSaga` and
`ExecuteSagaWithCompensation`: steps in definition order; on the first
failure `tx.Abort(ctx)` is issued (its result discarded) and the wrapped
`AddBranch` error is returned; no later step is registered. -/
def addBranchLoop (env : SagaEnv) : List SagaStep → Nat → Option GoError × List Call
  | [], _ => (none, [])
  | s :: rest, i =>
    match env.addErr i with
    | some e =>
      (some (.wrap ("failed to add branch " ++ s.BranchID) e),
        [.addBranch s.BranchID, .abortTx])
    | none =>
      let r := addBranchLoop env rest (i + 1)
      (r.1, .addBranch s.BranchID :: r.2)

/-- Model of `SagaManager.waitForCompletion` with an uncancelled context: polls
`GetInfo` once per tick; the `options.Timeout` timer is modelled by the
number of ticks that fit in it (`fuel`). -/
def waitForCompletion (env : SagaEnv) : Nat → Nat → Option GoError × List Call
  | 0, _ => (some (.msg "saga execution timeout"), [])
  | fuel + 1, tick =>
    match env.infos tick with
    | .err e => (some (.wrap "failed to get transaction info" e), [.getInfo])
    | .ok status _ =>
      if status = StatusCommitted then (none, [.getInfo])
      else if status = StatusAborted then
        (some (.msg "saga transaction aborted"), [.getInfo])
      else if status = StatusSubmitted then
        let r := waitForCompletion env fuel (tick + 1)
        (r.1, .getInfo :: r.2)
      else (some (.msg ("unknown transaction status: " ++ status)), [.getInfo])

/-- Model of `SagaManager.ExecuteSaga`: start, register every step in order,
submit, then poll.  Returns the result and the trace of remote calls. -/
def ExecuteSaga (env : SagaEnv) (wf : SagaWorkflow) (fuel : Nat) :
    Option GoError × List Call :=
  match env.startErr with
  | some e => (some (.wrap "failed to start saga transaction" e), [.startTx])
  | none =>
    match addBranchLoop env wf.Steps 0 with
    | (some e, calls) => (some e, .startTx :: calls)
    | (none, calls) =>
      match env.submitErr with
      | some e =>
        (some (.wrap "failed to submit saga transaction" e),
          .startTx :: calls ++ [.submitTx])
      | none =>
        let r := waitForCompletion env fuel 0
        (r.1, .startTx :: calls ++ [.submitTx] ++ r.2)

/-- The failed-branch check of `executeCompensation`: does the reported
branch list hold a branch with this id whose status is `FAILED`? -/
def branchFailed (branches : List Branch) (id : String) : Bool :=
  branches.any fun b => b.BranchID = id && b.Status = BranchStatusFailed

/-- Model of `SagaManager.executeCompensation`: walking the workflow in reverse
definition order, the compensation function is started for every step
whose branch is reported failed; all invocations are awaited and their
errors collected (the goroutines race, so the collection order is
determinised here to spawn order); if any error was collected the
aggregate is returned.  Returns the result and the list of steps the
compensation function was invoked on, in spawn order. -/
def executeCompensation (steps : List SagaStep) (branches : List Branch)
    (comp : SagaStep → Option GoError) : Option GoError × List SagaStep :=
  let selected := steps.reverse.filter fun s => branchFailed branches s.BranchID
  let errs := selected.filterMap fun s =>
    (comp s).map fun e => GoError.wrap ("compensation failed for branch " ++ s.BranchID) e
  (if errs.isEmpty then none else some (.agg "compensation failed" errs), selected)

/-- Model of `SagaManager.executeWithCompensation` with an uncancelled context:
like `waitForCompletion`, but an observed `ABORTED` status triggers
`executeCompensation`.  Returns the result and the compensated steps. -/
def executeWithCompensation (env : SagaEnv) (steps : List SagaStep)
    (comp : SagaStep → Option GoError) : Nat → Nat → Option GoError × List SagaStep
  | 0, _ => (some (.msg "saga execution timeout"), [])
  | fuel + 1, tick =>
    match env.infos tick with
    | .err e => (some (.wrap "failed to get transaction info" e), [])
    | .ok status branches =>
      if status = StatusCommitted then (none, [])
      else if status = StatusAborted then executeCompensation steps branches comp
      else if status = StatusSubmitted then
        executeWithCompensation env steps comp fuel (tick + 1)
      else (some (.msg ("unknown transaction status: " ++ status)), [])

/-- Model of `SagaManager.ExecuteSagaWithCompensation`: start, register, submit,
then monitor with the compensation path.  Returns the result and the
steps the compensation function was invoked on. -/
def ExecuteSagaWithCompensation (env : SagaEnv) (wf : SagaWorkflow)
    (comp : SagaStep → Option GoError) (fuel : Nat) :
    Option GoError × List SagaStep :=
  match env.startErr with
  | some e => (some (.wrap "failed to start saga transaction" e), [])
  | none =>
    match addBranchLoop env wf.Steps 0 with
    | (some e, _) => (some e, [])
    | (none, _) =>
      match env.submitErr with
      | some e => (some (.wrap "failed to submit saga transaction" e), [])
      | none => executeWithCompensation env wf.Steps comp fuel 0

/-! ## TCC orchestrator (`tcc.go`) -/

/-- Model of `ExecutionOptions` (the fields the TCC manager reads; the Saga
timeout is modelled as poll-tick fuel at the call sites). -/
structure ExecutionOptions where
  ParallelBranches : Bool
  MaxConcurrency : Nat

/-- Environment of a TCC execution: the error (if any) each remote call
would come back with — `tryErr i` / `confirmErr i` / `cancelErr i` for the
`Try` / `Confirm` / `Cancel` of step `i`.  The Go code discards every
`Cancel` result, so `cancelErr` is never read. -/
structure TCCEnv where
  startErr : Option GoError
  tryErr : Nat → Option GoError
  confirmErr : Nat → Option GoError
  cancelErr : Nat → Option GoError

/-- Model of `TCCManager.executeTryPhaseSequential`: strictly in workflow order,
stopping at the first failure. -/
def executeTryPhaseSequential (env : TCCEnv) : List TCCStep → Nat →
    Option GoError × List Call
  | [], _ => (none, [])
  | s :: rest, i =>
    match env.tryErr i with
    | some e =>
      (some (.wrap ("try phase failed for branch " ++ s.BranchID) e), [.tryB s.BranchID])
    | none =>
      let r := executeTryPhaseSequential env rest (i + 1)
      (r.1, .tryB s.BranchID :: r.2)

/-- Model of `TCCManager.executeTryPhaseParallel`: every branch is attempted (no
fail-fast); the goroutines write their wrapped errors to a channel in
completion order, modelled by the permutation `order` of step indices; the
collection loop returns the first channel error, if any. -/
def executeTryPhaseParallel (env : TCCEnv) (steps : List TCCStep)
    (order : List Nat) : Option GoError × List Call :=
  let errs := order.filterMap fun i =>
    match steps.get? i, env.tryErr i with
    | some s, some e => some (GoError.wrap ("try phase failed for branch " ++ s.BranchID) e)
    | _, _ => none
  (errs.head?, steps.map fun s => .tryB s.BranchID)

/-- Model of `TCCManager.executeTryPhase`: dispatch on `ParallelBranches`. -/
def executeTryPhase (env : TCCEnv) (steps : List TCCStep)
    (opts : ExecutionOptions) (order : List Nat) : Option GoError × List Call :=
  if opts.ParallelBranches then executeTryPhaseParallel env steps order
  else executeTryPhaseSequential env steps 0

/-- Model of `TCCManager.executeConfirmPhaseSequential`. -/
def executeConfirmPhaseSequential (env : TCCEnv) : List TCCStep → Nat →
    Option GoError × List Call
  | [], _ => (none, [])
  | s :: rest, i =>
    match env.confirmErr i with
    | some e =>
      (some (.wrap ("confirm phase failed for branch " ++ s.BranchID) e),
        [.confirmB s.BranchID])
    | none =>
      let r := executeConfirmPhaseSequential env rest (i + 1)
      (r.1, .confirmB s.BranchID :: r.2)

/-- Model of `TCCManager.executeConfirmPhaseParallel`, like the try phase. -/
def executeConfirmPhaseParallel (env : TCCEnv) (steps : List TCCStep)
    (order : List Nat) : Option GoError × List Call :=
  let errs := order.filterMap fun i =>
    match steps.get? i, env.confirmErr i with
    | some s, some e =>
      some (GoError.wrap ("confirm phase failed for branch " ++ s.BranchID) e)
    | _, _ => none
  (errs.head?, steps.map fun s => .confirmB s.BranchID)

/-- Model of `TCCManager.executeConfirmPhase`: dispatch on `ParallelBranches`. -/
def executeConfirmPhase (env : TCCEnv) (steps : List TCCStep)
    (opts : ExecutionOptions) (order : List Nat) : Option GoError × List Call :=
  if opts.ParallelBranches then executeConfirmPhaseParallel env steps order
  else executeConfirmPhaseSequential env steps 0

/-- Model of `TCCManager.executeCancelPhase`: `Cancel` is issued concurrently to
every branch of the workflow and every result is discarded; the function
returns nothing in Go, so here only the trace. -/
def executeCancelPhase (steps : List TCCStep) : List Call :=
  steps.map fun s => .cancelB s.BranchID

/-- Model of `TCCManager.ExecuteTCC`: start, try phase, confirm phase; any try or
confirm failure triggers the best-effort cancel phase for all branches
and is surfaced wrapped with its phase message.  `orderTry` and
`orderConfirm` are the completion orders of the parallel phases. -/
def ExecuteTCC (env : TCCEnv) (wf : TCCWorkflow) (opts : ExecutionOptions)
    (orderTry orderConfirm : List Nat) : Option GoError × List Call :=
  match env.startErr with
  | some e => (some (.wrap "failed to start TCC transaction" e), [.startTx])
  | none =>
    match executeTryPhase env wf.Steps opts orderTry with
    | (some e, tryCalls) =>
      (some (.wrap "TCC try phase failed" e),
        .startTx :: tryCalls ++ executeCancelPhase wf.Steps)
    | (none, tryCalls) =>
      match executeConfirmPhase env wf.Steps opts orderConfirm with
      | (some e, confirmCalls) =>
        (some (.wrap "TCC confirm phase failed" e),
          .startTx :: tryCalls ++ confirmCalls ++ executeCancelPhase wf.Steps)
      | (none, confirmCalls) => (none, .startTx :: tryCalls ++ confirmCalls)

/-- The error returned by `SagaWorkflow.Validate` names a violation that
the workflow really has: emptiness, an empty required field, or a
duplicated branch id (this definition follows the wording of the spec, to
be compared with the code-derived `Validate`). -/
def sagaViolation (sw : SagaWorkflow) (e : GoError) : Prop :=
  (sw.Steps = [] ∧ e = .msg "saga workflow must have at least one step") ∨
  (e = .msg "branch ID cannot be empty" ∧ ∃ s ∈ sw.Steps, s.BranchID = "") ∨
  (e = .msg "action cannot be empty" ∧ ∃ s ∈ sw.Steps, s.Action = "") ∨
  (∃ id, e = .msg ("duplicate branch ID: " ++ id) ∧
    ¬(sw.Steps.map SagaStep.BranchID).Nodup)

/-- TCC analogue of `sagaViolation`. -/
def tccViolation (tw : TCCWorkflow) (e : GoError) : Prop :=
  (tw.Steps = [] ∧ e = .msg "TCC workflow must have at least one step") ∨
  (e = .msg "branch ID cannot be empty" ∧ ∃ s ∈ tw.Steps, s.BranchID = "") ∨
  (e = .msg "try action cannot be empty" ∧ ∃ s ∈ tw.Steps, s.Try = "") ∨
  (e = .msg "confirm action cannot be empty" ∧ ∃ s ∈ tw.Steps, s.Confirm = "") ∨
  (e = .msg "cancel action cannot be empty" ∧ ∃ s ∈ tw.Steps, s.Cancel = "") ∨
  (∃ id, e = .msg ("duplicate branch ID: " ++ id) ∧
    ¬(tw.Steps.map TCCStep.BranchID).Nodup)

/-! ## Lemmas about workflow validation -/

theorem sagaValidateLoop_none_iff (steps : List SagaStep) (seen : List String) :
    sagaValidateLoop steps seen = none ↔
      ((∀ s ∈ steps, s.BranchID ≠ "" ∧ s.Action ≠ "") ∧
        (steps.map SagaStep.BranchID).Nodup ∧
        ∀ s ∈ steps, s.BranchID ∉ seen) := by
  induction steps generalizing seen with
  | nil => simp [sagaValidateLoop]
  | cons s rest ih =>
    simp only [sagaValidateLoop]
    by_cases h1 : s.BranchID = ""
    · simp [h1]
    · by_cases h2 : s.Action = ""
      · simp [h1, h2]
      · by_cases h3 : seen.contains s.BranchID
        · have h3m : s.BranchID ∈ seen := by
            simpa using h3
          simp only [if_neg h1, if_neg h2, if_pos h3]
          constructor
          · intro h; exact absurd h (by simp)
          · rintro ⟨-, -, hni⟩
            exact absurd h3m (hni s (by simp))
        · have h3m : s.BranchID ∉ seen := by
            simpa using h3
          simp only [if_neg h1, if_neg h2, if_neg h3]
          rw [ih]
          constructor
          · rintro ⟨hfields, hnd, hni⟩
            refine ⟨?_, ?_, ?_⟩
            · intro t ht
              rcases List.mem_cons.mp ht with rfl | htr
              · exact ⟨h1, h2⟩
              · exact hfields t htr
            · simp only [List.map_cons, List.nodup_cons]
              refine ⟨fun hmem => ?_, hnd⟩
              rcases List.mem_map.mp hmem with ⟨t, htmem, hteq⟩
              have hc := hni t htmem
              rw [List.mem_cons] at hc
              push_neg at hc
              exact hc.1 hteq
            · intro t ht
              rcases List.mem_cons.mp ht with rfl | htr
              · exact h3m
              · have hc := hni t htr
                rw [List.mem_cons] at hc
                push_neg at hc
                exact hc.2
          · rintro ⟨hfields, hnd, hni⟩
            simp only [List.map_cons, List.nodup_cons] at hnd
            refine ⟨fun t htr => hfields t (List.mem_cons_of_mem s htr), hnd.2, ?_⟩
            intro t htr
            rw [List.mem_cons]
            push_neg
            exact ⟨fun heq => hnd.1 (List.mem_map.mpr ⟨t, htr, heq⟩),
              hni t (List.mem_cons_of_mem s htr)⟩

theorem tccValidateLoop_none_iff (steps : List TCCStep) (seen : List String) :
    tccValidateLoop steps seen = none ↔
      ((∀ s ∈ steps, s.BranchID ≠ "" ∧ s.Try ≠ "" ∧ s.Confirm ≠ "" ∧ s.Cancel ≠ "") ∧
        (steps.map TCCStep.BranchID).Nodup ∧
        ∀ s ∈ steps, s.BranchID ∉ seen) := by
  induction steps generalizing seen with
  | nil => simp [tccValidateLoop]
  | cons s rest ih =>
    simp only [tccValidateLoop]
    by_cases h1 : s.BranchID = ""
    · simp [h1]
    · by_cases h2 : s.Try = ""
      · simp [h1, h2]
      · by_cases h3 : s.Confirm = ""
        · simp [h1, h2, h3]
        · by_cases h4 : s.Cancel = ""
          · simp [h1, h2, h3, h4]
          · by_cases h5 : seen.contains s.BranchID
            · have h5m : s.BranchID ∈ seen := by simpa using h5
              simp only [if_neg h1, if_neg h2, if_neg h3, if_neg h4, if_pos h5]
              constructor
              · intro h; exact absurd h (by simp)
              · rintro ⟨-, -, hni⟩
                exact absurd h5m (hni s (by simp))
            · have h5m : s.BranchID ∉ seen := by simpa using h5
              simp only [if_neg h1, if_neg h2, if_neg h3, if_neg h4, if_neg h5]
              rw [ih]
              constructor
              · rintro ⟨hfields, hnd, hni⟩
                refine ⟨?_, ?_, ?_⟩
                · intro t ht
                  rcases List.mem_cons.mp ht with rfl | htr
                  · exact ⟨h1, h2, h3, h4⟩
                  · exact hfields t htr
                · simp only [List.map_cons, List.nodup_cons]
                  refine ⟨fun hmem => ?_, hnd⟩
                  rcases List.mem_map.mp hmem with ⟨t, htmem, hteq⟩
                  have hc := hni t htmem
                  rw [List.mem_cons] at hc
                  push_neg at hc
                  exact hc.1 hteq
                · intro t ht
                  rcases List.mem_cons.mp ht with rfl | htr
                  · exact h5m
                  · have hc := hni t htr
                    rw [List.mem_cons] at hc
                    push_neg at hc
                    exact hc.2
              · rintro ⟨hfields, hnd, hni⟩
                simp only [List.map_cons, List.nodup_cons] at hnd
                refine ⟨fun t htr => hfields t (List.mem_cons_of_mem s htr), hnd.2, ?_⟩
                intro t htr
                rw [List.mem_cons]
                push_neg
                exact ⟨fun heq => hnd.1 (List.mem_map.mpr ⟨t, htr, heq⟩),
                  hni t (List.mem_cons_of_mem s htr)⟩

theorem sagaValidateLoop_some (steps : List SagaStep) (seen : List String)
    (e : GoError) (h : sagaValidateLoop steps seen = some e) :
    (e = .msg "branch ID cannot be empty" ∧ ∃ s ∈ steps, s.BranchID = "") ∨
    (e = .msg "action cannot be empty" ∧ ∃ s ∈ steps, s.Action = "") ∨
    (∃ id, e = .msg ("duplicate branch ID: " ++ id) ∧
      id ∈ steps.map SagaStep.BranchID ∧
      (id ∈ seen ∨ ¬(steps.map SagaStep.BranchID).Nodup)) := by
  induction steps generalizing seen with
  | nil => simp [sagaValidateLoop] at h
  | cons s rest ih =>
    simp only [sagaValidateLoop] at h
    by_cases h1 : s.BranchID = ""
    · rw [if_pos h1] at h
      exact Or.inl ⟨(Option.some_inj.mp h).symm, s, by simp, h1⟩
    · rw [if_neg h1] at h
      by_cases h2 : s.Action = ""
      · rw [if_pos h2] at h
        exact Or.inr (Or.inl ⟨(Option.some_inj.mp h).symm, s, by simp, h2⟩)
      · rw [if_neg h2] at h
        by_cases h3 : seen.contains s.BranchID
        · rw [if_pos h3] at h
          refine Or.inr (Or.inr ⟨s.BranchID, (Option.some_inj.mp h).symm, by simp,
            Or.inl (by simpa using h3)⟩)
        · rw [if_neg h3] at h
          rcases ih (s.BranchID :: seen) h with ⟨he, t, htm, hfe⟩ | ⟨he, t, htm, hfe⟩ |
            ⟨id, he, hidm, hcase⟩
          · exact Or.inl ⟨he, t, List.mem_cons_of_mem s htm, hfe⟩
          · exact Or.inr (Or.inl ⟨he, t, List.mem_cons_of_mem s htm, hfe⟩)
          · refine Or.inr (Or.inr ⟨id, he, by simp [hidm], ?_⟩)
            rcases hcase with hseen | hnd
            · rcases List.mem_cons.mp hseen with rfl | hs
              · exact Or.inr (by
                  simp only [List.map_cons, List.nodup_cons]
                  exact fun hc => hc.1 hidm)
              · exact Or.inl hs
            · exact Or.inr (by
                simp only [List.map_cons, List.nodup_cons]
                exact fun hc => hnd hc.2)

theorem tccValidateLoop_some (steps : List TCCStep) (seen : List String)
    (e : GoError) (h : tccValidateLoop steps seen = some e) :
    (e = .msg "branch ID cannot be empty" ∧ ∃ s ∈ steps, s.BranchID = "") ∨
    (e = .msg "try action cannot be empty" ∧ ∃ s ∈ steps, s.Try = "") ∨
    (e = .msg "confirm action cannot be empty" ∧ ∃ s ∈ steps, s.Confirm = "") ∨
    (e = .msg "cancel action cannot be empty" ∧ ∃ s ∈ steps, s.Cancel = "") ∨
    (∃ id, e = .msg ("duplicate branch ID: " ++ id) ∧
      id ∈ steps.map TCCStep.BranchID ∧
      (id ∈ seen ∨ ¬(steps.map TCCStep.BranchID).Nodup)) := by
  induction steps generalizing seen with
  | nil => simp [tccValidateLoop] at h
  | cons s rest ih =>
    simp only [tccValidateLoop] at h
    by_cases h1 : s.BranchID = ""
    · rw [if_pos h1] at h
      exact Or.inl ⟨(Option.some_inj.mp h).symm, s, by simp, h1⟩
    · rw [if_neg h1] at h
      by_cases h2 : s.Try = ""
      · rw [if_pos h2] at h
        exact Or.inr (Or.inl ⟨(Option.some_inj.mp h).symm, s, by simp, h2⟩)
      · rw [if_neg h2] at h
        by_cases h3 : s.Confirm = ""
        · rw [if_pos h3] at h
          exact Or.inr (Or.inr (Or.inl ⟨(Option.some_inj.mp h).symm, s, by simp, h3⟩))
        · rw [if_neg h3] at h
          by_cases h4 : s.Cancel = ""
          · rw [if_pos h4] at h
            exact Or.inr (Or.inr (Or.inr (Or.inl
              ⟨(Option.some_inj.mp h).symm, s, by simp, h4⟩)))
          · rw [if_neg h4] at h
            by_cases h5 : seen.contains s.BranchID
            · rw [if_pos h5] at h
              exact Or.inr (Or.inr (Or.inr (Or.inr ⟨s.BranchID,
                (Option.some_inj.mp h).symm, by simp, Or.inl (by simpa using h5)⟩)))
            · rw [if_neg h5] at h
              rcases ih (s.BranchID :: seen) h with ⟨he, t, htm, hfe⟩ | ⟨he, t, htm, hfe⟩ |
                ⟨he, t, htm, hfe⟩ | ⟨he, t, htm, hfe⟩ | ⟨id, he, hidm, hcase⟩
              · exact Or.inl ⟨he, t, List.mem_cons_of_mem s htm, hfe⟩
              · exact Or.inr (Or.inl ⟨he, t, List.mem_cons_of_mem s htm, hfe⟩)
              · exact Or.inr (Or.inr (Or.inl ⟨he, t, List.mem_cons_of_mem s htm, hfe⟩))
              · exact Or.inr (Or.inr (Or.inr (Or.inl
                  ⟨he, t, List.mem_cons_of_mem s htm, hfe⟩)))
              · refine Or.inr (Or.inr (Or.inr (Or.inr ⟨id, he, by simp [hidm], ?_⟩)))
                rcases hcase with hseen | hnd
                · rcases List.mem_cons.mp hseen with rfl | hs
                  · exact Or.inr (by
                      simp only [List.map_cons, List.nodup_cons]
                      exact fun hc => hc.1 hidm)
                  · exact Or.inl hs
                · exact Or.inr (by
                    simp only [List.map_cons, List.nodup_cons]
                    exact fun hc => hnd hc.2)

theorem sagaValidate_none_iff (sw : SagaWorkflow) :
    SagaWorkflow.Validate sw = none ↔ sagaWellFormed sw := by
  unfold SagaWorkflow.Validate sagaWellFormed
  by_cases hnil : sw.Steps = []
  · simp [hnil]
  · rw [if_neg hnil, sagaValidateLoop_none_iff]
    simp [hnil]

theorem tccValidate_none_iff (tw : TCCWorkflow) :
    TCCWorkflow.Validate tw = none ↔ tccWellFormed tw := by
  unfold TCCWorkflow.Validate tccWellFormed
  by_cases hnil : tw.Steps = []
  · simp [hnil]
  · rw [if_neg hnil, tccValidateLoop_none_iff]
    simp [hnil]

/-- Claim C7. For every SagaWorkflow or TCCWorkflow whose step list is
non-empty, has pairwise-distinct branchIds, and has every required field
non-empty, `Validate()` returns no error; for any workflow with zero
steps, a duplicate branchId, or an empty required field, `Validate()`
returns an error naming the specific violation. -/
theorem validate_spec (sw : SagaWorkflow) (tw : TCCWorkflow) :
    (SagaWorkflow.Validate sw = none ↔ sagaWellFormed sw) ∧
    (∀ e, SagaWorkflow.Validate sw = some e → sagaViolation sw e) ∧
    (TCCWorkflow.Validate tw = none ↔ tccWellFormed tw) ∧
    (∀ e, TCCWorkflow.Validate tw = some e → tccViolation tw e) := by
  refine ⟨sagaValidate_none_iff sw, ?_, tccValidate_none_iff tw, ?_⟩
  · intro e he
    unfold SagaWorkflow.Validate at he
    by_cases hnil : sw.Steps = []
    · rw [if_pos hnil] at he
      exact Or.inl ⟨hnil, (Option.some_inj.mp he).symm⟩
    · rw [if_neg hnil] at he
      rcases sagaValidateLoop_some _ _ _ he with h | h | ⟨id, heq, -, hcase⟩
      · exact Or.inr (Or.inl h)
      · exact Or.inr (Or.inr (Or.inl h))
      · refine Or.inr (Or.inr (Or.inr ⟨id, heq, ?_⟩))
        rcases hcase with hmem | hnd
        · exact absurd hmem (List.not_mem_nil id)
        · exact hnd
  · intro e he
    unfold TCCWorkflow.Validate at he
    by_cases hnil : tw.Steps = []
    · rw [if_pos hnil] at he
      exact Or.inl ⟨hnil, (Option.some_inj.mp he).symm⟩
    · rw [if_neg hnil] at he
      rcases tccValidateLoop_some _ _ _ he with h | h | h | h | ⟨id, heq, -, hcase⟩
      · exact Or.inr (Or.inl h)
      · exact Or.inr (Or.inr (Or.inl h))
      · exact Or.inr (Or.inr (Or.inr (Or.inl h)))
      · exact Or.inr (Or.inr (Or.inr (Or.inr (Or.inl h))))
      · refine Or.inr (Or.inr (Or.inr (Or.inr (Or.inr ⟨id, heq, ?_⟩))))
        rcases hcase with hmem | hnd
        · exact absurd hmem (List.not_mem_nil id)
        · exact hnd

/-- Evaluation of `validate_spec` on concrete well-formed workflows. -/
theorem validate_spec_witness :
    sagaWellFormed ⟨[⟨"a", "act", "comp"⟩]⟩ ∧
      tccWellFormed ⟨[⟨"a", "t", "c", "x"⟩]⟩ :=
  ⟨(validate_spec ⟨[⟨"a", "act", "comp"⟩]⟩ ⟨[⟨"a", "t", "c", "x"⟩]⟩).1.mp rfl,
    (validate_spec ⟨[⟨"a", "act", "comp"⟩]⟩ ⟨[⟨"a", "t", "c", "x"⟩]⟩).2.2.1.mp rfl⟩

/-- Claim C10. For every attempt index `n ≥ 0`, the backoff delay computed
before jitter equals `RetryInterval * BackoffFactor ^ n`; the jitter term
is bounded to ±10% of the computed delay, never produces a negative total
delay, and the final delay floor is zero. -/
theorem calculateBackoff_spec (base factor m : ℚ) (n : Nat)
    (hb : 0 ≤ base) (hf : 0 ≤ factor) (hm0 : 0 ≤ m) (hm1 : m < 1) :
    exponentialDelay base factor n = base * factor ^ n ∧
    |backoffJitter (exponentialDelay base factor n) m| ≤
      (1 / 10) * exponentialDelay base factor n ∧
    0 ≤ calculateBackoff base factor n m := by
  have hD : 0 ≤ exponentialDelay base factor n :=
    mul_nonneg hb (pow_nonneg hf n)
  refine ⟨rfl, ?_, ?_⟩
  · unfold backoffJitter
    have habs : |1 / 2 - m| ≤ 1 / 2 := by
      rw [abs_le]
      constructor <;> linarith
    calc |exponentialDelay base factor n * (1 / 10) * (1 / 2 - m)|
        = exponentialDelay base factor n * (1 / 10) * |1 / 2 - m| := by
          rw [abs_mul, abs_of_nonneg (by linarith : (0:ℚ) ≤ exponentialDelay base factor n * (1 / 10))]
      _ ≤ exponentialDelay base factor n * (1 / 10) * (1 / 2) := by
          exact mul_le_mul_of_nonneg_left habs (by linarith)
      _ ≤ (1 / 10) * exponentialDelay base factor n := by linarith
  · unfold calculateBackoff backoffJitter
    nlinarith [mul_nonneg hD (sub_nonneg.mpr hm1.le)]

/-- Evaluation of `calculateBackoff_spec` at interval 1, factor 2,
attempt 3, time fraction 0. -/
theorem calculateBackoff_spec_witness :
    exponentialDelay 1 2 3 = 1 * 2 ^ 3 ∧
    |backoffJitter (exponentialDelay 1 2 3) 0| ≤ (1 / 10) * exponentialDelay 1 2 3 ∧
    0 ≤ calculateBackoff 1 2 3 0 :=
  calculateBackoff_spec 1 2 0 3 (by norm_num) (by norm_num) (by norm_num) (by norm_num)

/-! ## Lemmas about the retry loop -/

theorem never_cancelBefore (i : Nat) : RetryCtx.never.cancelBefore i = false := rfl

theorem never_cancelDuringWait (i : Nat) :
    RetryCtx.never.cancelDuringWait i = false := rfl

theorem retryLoop_firstSuccess (op : Nat → Option GoError) (mr : Nat) :
    ∀ (k a left : Nat), k ≤ left → (∀ i, i < k → (op (a + i)).isSome) →
      op (a + k) = none →
      retryLoop RetryCtx.never op mr a left = (none, a + k + 1) := by
  intro k
  induction k with
  | zero =>
    intro a left _ _ hsucc
    rw [retryLoop]
    simp only [never_cancelBefore, Bool.false_eq_true, if_false]
    rw [show a + 0 = a from rfl] at hsucc
    simp [hsucc]
  | succ k ih =>
    intro a left hk hfail hsucc
    obtain ⟨e, he⟩ : ∃ e, op a = some e := by
      have h0 := hfail 0 (Nat.succ_pos k)
      rw [show a + 0 = a from rfl] at h0
      exact Option.isSome_iff_exists.mp h0
    obtain ⟨left', rfl⟩ : ∃ left', left = left' + 1 :=
      ⟨left - 1, by omega⟩
    rw [retryLoop]
    simp only [never_cancelBefore, never_cancelDuringWait, Bool.false_eq_true, if_false, he]
    have hrec := ih (a + 1) left' (by omega)
      (fun i hi => by
        have := hfail (i + 1) (by omega)
        rwa [show a + (i + 1) = a + 1 + i by omega] at this)
      (by rwa [show a + 1 + k = a + (k + 1) by omega])
    rw [hrec]
    exact congrArg _ (by omega)

theorem retryLoop_allFail (op : Nat → Option GoError) (mr : Nat)
    (hfail : ∀ i, (op i).isSome) :
    ∀ (left a : Nat), ∃ e, op (a + left) = some e ∧
      retryLoop RetryCtx.never op mr a left =
        (some (.wrap ("operation failed after " ++ toString mr ++ " retries") e),
          a + left + 1) := by
  intro left
  induction left with
  | zero =>
    intro a
    obtain ⟨e, he⟩ := Option.isSome_iff_exists.mp (hfail a)
    refine ⟨e, by simpa using he, ?_⟩
    rw [retryLoop]
    simp [never_cancelBefore, he]
  | succ left ih =>
    intro a
    obtain ⟨e0, he0⟩ := Option.isSome_iff_exists.mp (hfail a)
    obtain ⟨e, he, hres⟩ := ih (a + 1)
    refine ⟨e, by rwa [show a + (left + 1) = a + 1 + left by omega], ?_⟩
    rw [retryLoop]
    simp only [never_cancelBefore, never_cancelDuringWait, Bool.false_eq_true, if_false, he0]
    rw [hres]
    exact congrArg _ (by omega)

/-- Claim C4. For every RetryManager with `MaxRetries = r` and an
uncancelled context: if the operation fails on exactly its first `k`
invocations (`k ≤ r`) and then succeeds, `ExecuteWithRetry` returns no
error and the operation was invoked exactly `k + 1` times; if the
operation fails on every invocation, it is invoked exactly `r + 1` times
and the result wraps the last failure. -/
theorem executeWithRetry_spec (cfg : RetryConfig) (op : Nat → Option GoError) :
    (∀ k, k ≤ cfg.MaxRetries → (∀ i, i < k → (op i).isSome) → op k = none →
      ExecuteWithRetry cfg RetryCtx.never op = (none, k + 1)) ∧
    ((∀ i, (op i).isSome) → ∃ e, op cfg.MaxRetries = some e ∧
      ExecuteWithRetry cfg RetryCtx.never op =
        (some (.wrap ("operation failed after " ++ toString cfg.MaxRetries ++ " retries") e),
          cfg.MaxRetries + 1)) := by
  constructor
  · intro k hk hfail hsucc
    unfold ExecuteWithRetry
    have := retryLoop_firstSuccess op cfg.MaxRetries k 0 cfg.MaxRetries hk
      (fun i hi => by simpa using hfail i hi) (by simpa using hsucc)
    simpa using this
  · intro hfail
    obtain ⟨e, he, hres⟩ := retryLoop_allFail op cfg.MaxRetries hfail cfg.MaxRetries 0
    exact ⟨e, by simpa using he, by unfold ExecuteWithRetry; simpa using hres⟩

/-- Evaluation of `executeWithRetry_spec`: an operation failing twice then
succeeding, under `MaxRetries = 3`, is invoked three times and succeeds. -/
theorem executeWithRetry_spec_witness :
    ExecuteWithRetry ⟨3⟩ RetryCtx.never
      (fun i => if i < 2 then some (.msg "boom") else none) = (none, 3) :=
  (executeWithRetry_spec ⟨3⟩ _).1 2 (by norm_num)
    (fun i hi => by simp [hi]) (by norm_num)

theorem retryLoop_cancelBefore (ctx : RetryCtx) (op : Nat → Option GoError)
    (mr : Nat) :
    ∀ (j a left : Nat), j ≤ left →
      (∀ i, i < j → ctx.cancelBefore (a + i) = false ∧
        ctx.cancelDuringWait (a + i) = false ∧ (op (a + i)).isSome) →
      ctx.cancelBefore (a + j) = true →
      retryLoop ctx op mr a left = (some .ctxCanceled, a + j) := by
  intro j
  induction j with
  | zero =>
    intro a left _ _ hcancel
    rw [retryLoop]
    rw [show a + 0 = a from rfl] at hcancel
    simp [hcancel]
  | succ j ih =>
    intro a left hj hprior hcancel
    obtain ⟨hb, hw, hs⟩ := by
      have := hprior 0 (Nat.succ_pos j)
      rwa [show a + 0 = a from rfl] at this
    obtain ⟨e, he⟩ := Option.isSome_iff_exists.mp hs
    obtain ⟨left', rfl⟩ : ∃ left', left = left' + 1 := ⟨left - 1, by omega⟩
    rw [retryLoop]
    simp only [hb, Bool.false_eq_true, if_false, he, hw]
    have hrec := ih (a + 1) left' (by omega)
      (fun i hi => by
        have := hprior (i + 1) (by omega)
        rwa [show a + (i + 1) = a + 1 + i by omega] at this)
      (by rwa [show a + 1 + j = a + (j + 1) by omega])
    rw [hrec]
    exact congrArg _ (by omega)

theorem retryLoop_cancelDuringWait (ctx : RetryCtx) (op : Nat → Option GoError)
    (mr : Nat) :
    ∀ (j a left : Nat), j < left →
      (∀ i, i < j → ctx.cancelBefore (a + i) = false ∧
        ctx.cancelDuringWait (a + i) = false ∧ (op (a + i)).isSome) →
      ctx.cancelBefore (a + j) = false → (op (a + j)).isSome →
      ctx.cancelDuringWait (a + j) = true →
      retryLoop ctx op mr a left = (some .ctxCanceled, a + j + 1) := by
  intro j
  induction j with
  | zero =>
    intro a left hj _ hb hs hw
    rw [show a + 0 = a from rfl] at hb hs hw
    obtain ⟨e, he⟩ := Option.isSome_iff_exists.mp hs
    obtain ⟨left', rfl⟩ : ∃ left', left = left' + 1 := ⟨left - 1, by omega⟩
    rw [retryLoop]
    simp [hb, he, hw]
  | succ j ih =>
    intro a left hj hprior hb hs hw
    obtain ⟨hb0, hw0, hs0⟩ := by
      have := hprior 0 (Nat.succ_pos j)
      rwa [show a + 0 = a from rfl] at this
    obtain ⟨e, he⟩ := Option.isSome_iff_exists.mp hs0
    obtain ⟨left', rfl⟩ : ∃ left', left = left' + 1 := ⟨left - 1, by omega⟩
    rw [retryLoop]
    simp only [hb0, Bool.false_eq_true, if_false, he, hw0]
    have hrec := ih (a + 1) left' (by omega)
      (fun i hi => by
        have := hprior (i + 1) (by omega)
        rwa [show a + (i + 1) = a + 1 + i by omega] at this)
      (by rwa [show a + 1 + j = a + (j + 1) by omega])
      (by rwa [show a + 1 + j = a + (j + 1) by omega])
      (by rwa [show a + 1 + j = a + (j + 1) by omega])
    rw [hrec]
    exact congrArg _ (by omega)

/-- Claim C8. For every `ExecuteWithRetry` call whose context is cancelled
before an attempt begins or during a backoff wait between attempts: the
function returns the context cancellation error (not a retry-exhaustion
error), starts no further attempts, and the in-flight backoff wait is
short-circuited — the cancellation observed at the checkpoint of attempt
`j` ends the run with exactly `j` (respectively `j + 1`) operation
invocations. -/
theorem executeWithRetry_cancellation (cfg : RetryConfig) (ctx : RetryCtx)
    (op : Nat → Option GoError) (j : Nat) (hj : j ≤ cfg.MaxRetries)
    (hprior : ∀ i, i < j → ctx.cancelBefore i = false ∧
      ctx.cancelDuringWait i = false ∧ (op i).isSome) :
    (ctx.cancelBefore j = true →
      ExecuteWithRetry cfg ctx op = (some .ctxCanceled, j)) ∧
    (j < cfg.MaxRetries → ctx.cancelBefore j = false → (op j).isSome →
      ctx.cancelDuringWait j = true →
      ExecuteWithRetry cfg ctx op = (some .ctxCanceled, j + 1)) ∧
    (∀ s e, (GoError.ctxCanceled = GoError.wrap s e) → False) := by
  refine ⟨?_, ?_, fun s e h => by cases h⟩
  · intro hc
    unfold ExecuteWithRetry
    have := retryLoop_cancelBefore ctx op cfg.MaxRetries j 0 cfg.MaxRetries hj
      (fun i hi => by simpa using hprior i hi) (by simpa using hc)
    simpa using this
  · intro hlt hb hs hw
    unfold ExecuteWithRetry
    have := retryLoop_cancelDuringWait ctx op cfg.MaxRetries j 0 cfg.MaxRetries hlt
      (fun i hi => by simpa using hprior i hi) (by simpa using hb)
      (by simpa using hs) (by simpa using hw)
    simpa using this

/-- Evaluation of `executeWithRetry_cancellation`: cancellation observed
at the pre-check of attempt 1 stops the run after one invocation. -/
theorem executeWithRetry_cancellation_witness :
    ExecuteWithRetry ⟨2⟩ ⟨fun i => 1 ≤ i, fun _ => false⟩
      (fun _ => some (.msg "boom")) = (some .ctxCanceled, 1) :=
  (executeWithRetry_cancellation ⟨2⟩ ⟨fun i => 1 ≤ i, fun _ => false⟩
    (fun _ => some (.msg "boom")) 1 (by norm_num)
    (fun i hi => by
      have : i = 0 := by omega
      subst this
      exact ⟨by decide, rfl, rfl⟩)).1 (by decide)

/-- Claim C9. For every Transaction handle: the mode field is never modified
after creation, and the local branches list grows only via successful
AddBranch calls — a successful AddBranch (status 200) appends exactly one
entry preserving call order, a failed AddBranch leaves the list unchanged,
and no other phase operation (Submit, Abort, Try, Confirm, Cancel,
GetInfo, BranchSucceed, BranchFail) mutates the list or the mode. -/
theorem transaction_locals (tx : Transaction) (id act : String) (p : List Nat)
    (r : RemoteResult) (b : String) (f : GoError ⊕ TransactionInfo) :
    (tx.AddBranch id act (.http 200 b) =
      (none, { tx with branches :=
        tx.branches ++ [{ BranchID := id, Action := act, Status := "" }] })) ∧
    (∀ e, (tx.AddBranch id act r).1 = some e → (tx.AddBranch id act r).2 = tx) ∧
    ((tx.AddBranch id act r).1 = none →
      (tx.AddBranch id act r).2.branches =
        tx.branches ++ [{ BranchID := id, Action := act, Status := "" }]) ∧
    ((tx.AddBranch id act r).2.mode = tx.mode ∧
      (tx.AddBranch id act r).2.gid = tx.gid ∧
      (tx.AddBranch id act r).2.payload = tx.payload) ∧
    (tx.Submit r).2 = tx ∧ (tx.Abort r).2 = tx ∧ (tx.Try id act p r).2 = tx ∧
    (tx.Confirm id r).2 = tx ∧ (tx.Cancel id r).2 = tx ∧
    (tx.BranchSucceed id r).2 = tx ∧ (tx.BranchFail id r).2 = tx ∧
    (tx.GetInfo f).2 = tx := by
  refine ⟨?_, ?_, ?_, ?_, rfl, rfl, rfl, rfl, rfl, rfl, rfl, rfl⟩
  · simp [Transaction.AddBranch, phaseResult]
  · intro e he
    unfold Transaction.AddBranch at he ⊢
    cases r with
    | transportErr e0 => simp [phaseResult]
    | http status body =>
      by_cases hs : status = 200
      · subst hs
        simp [phaseResult] at he
      · simp [phaseResult, hs]
  · intro he
    unfold Transaction.AddBranch at he ⊢
    cases r with
    | transportErr e0 => simp [phaseResult] at he
    | http status body =>
      by_cases hs : status = 200
      · subst hs
        simp [phaseResult]
      · simp [phaseResult, hs] at he
  · unfold Transaction.AddBranch
    cases r with
    | transportErr e0 => simp [phaseResult]
    | http status body =>
      by_cases hs : status = 200
      · subst hs
        simp [phaseResult]
      · simp [phaseResult, hs]

/-- Evaluation of `transaction_locals`: a successful AddBranch on a fresh
handle appends exactly the new branch. -/
theorem transaction_locals_witness :
    Transaction.AddBranch ⟨"g", "saga", [], []⟩ "b1" "act" (.http 200 "ok") =
      (none, ⟨"g", "saga", [], [⟨"b1", "act", ""⟩]⟩) :=
  (transaction_locals ⟨"g", "saga", [], []⟩ "b1" "act" [] (.http 200 "ok") "ok"
    (Sum.inl (.msg "x"))).1

theorem execFailures_closed (calls : List (Nat × GoError)) :
    ∀ cb : CircuitBreaker, cb.state = .Closed →
      cb.failureCount < cb.FailureThreshold →
      cb.failureCount + calls.length ≤ cb.FailureThreshold →
      (execFailures cb calls).failureCount = cb.failureCount + calls.length ∧
      (execFailures cb calls).state =
        (if cb.FailureThreshold ≤ cb.failureCount + calls.length
          then CircuitBreakerState.Open else .Closed) ∧
      (execFailures cb calls).lastFailureTime =
        (calls.map Prod.fst).getLastD cb.lastFailureTime ∧
      (execFailures cb calls).FailureThreshold = cb.FailureThreshold ∧
      (execFailures cb calls).RecoveryTimeout = cb.RecoveryTimeout := by
  induction calls with
  | nil =>
    intro cb hstate hlt _
    refine ⟨by simp [execFailures], ?_, by simp [execFailures], by simp [execFailures],
      by simp [execFailures]⟩
    simp only [execFailures, List.foldl_nil, List.length_nil, Nat.add_zero]
    rw [if_neg (by omega)]
    exact hstate
  | cons c rest ih =>
    intro cb hstate hlt hle
    obtain ⟨t, e⟩ := c
    have hnotopen : ¬ cb.state = CircuitBreakerState.Open := by
      rw [hstate]
      intro h
      cases h
    have hstep : execFailures cb ((t, e) :: rest) =
        execFailures (recordFailure cb t) rest := by
      simp only [execFailures, List.foldl_cons]
      congr 1
      simp [CircuitBreaker.Execute, hnotopen]
    by_cases hopen : cb.FailureThreshold ≤ cb.failureCount + 1
    · have hrest : rest = [] := by
        rw [List.length_cons] at hle
        exact List.length_eq_zero.mp (by omega)
      subst hrest
      rw [hstep]
      simp only [execFailures, List.foldl_nil, recordFailure]
      rw [if_pos hopen]
      refine ⟨by simp, ?_, by simp, by simp, by simp⟩
      rw [if_pos (by simp only [List.length_cons, List.length_nil]; omega)]
    · have hrec : recordFailure cb t =
          { cb with failureCount := cb.failureCount + 1, lastFailureTime := t } := by
        simp only [recordFailure]
        rw [if_neg hopen]
      rw [hstep, hrec]
      have hih := ih { cb with failureCount := cb.failureCount + 1, lastFailureTime := t }
        hstate (by simp only []; omega)
        (by simp only [List.length_cons] at hle ⊢; omega)
      obtain ⟨hc, hs, hl, hthr, hrto⟩ := hih
      refine ⟨?_, ?_, ?_, by simpa using hthr, by simpa using hrto⟩
      · rw [hc]
        simp only [List.length_cons]
        omega
      · rw [hs]
        exact if_congr (by simp only [List.length_cons]; omega) rfl rfl
      · rw [hl]
        simp only [List.map_cons, List.getLastD_cons]

/-- Claim C3. After `FailureThreshold` consecutive failures recorded through
`Execute` on a fresh breaker, the state is Open; while Open and within
`RecoveryTimeout` of the last failure every call is rejected with the
"circuit breaker is open" error without invoking the operation; once more
than `RecoveryTimeout` has elapsed the next call is attempted — success
yields Closed with failure count 0, failure yields Open again. -/
theorem circuitBreaker_spec (threshold recovery : Nat)
    (calls : List (Nat × GoError)) (h1 : 1 ≤ threshold)
    (hlen : calls.length = threshold) :
    ((execFailures (NewCircuitBreaker threshold recovery) calls).state = .Open ∧
      (execFailures (NewCircuitBreaker threshold recovery) calls).failureCount =
        threshold ∧
      (execFailures (NewCircuitBreaker threshold recovery) calls).lastFailureTime =
        (calls.map Prod.fst).getLastD 0) ∧
    (∀ (cb : CircuitBreaker) (now : Nat) (op : Option GoError),
      cb.state = .Open → now - cb.lastFailureTime ≤ cb.RecoveryTimeout →
      cb.Execute now op = (some (.msg "circuit breaker is open"), cb, false)) ∧
    (∀ (cb : CircuitBreaker) (now : Nat), cb.state = .Open →
      cb.RecoveryTimeout < now - cb.lastFailureTime →
      ((cb.Execute now none).1 = none ∧
        (cb.Execute now none).2.1.state = .Closed ∧
        (cb.Execute now none).2.1.failureCount = 0 ∧
        (cb.Execute now none).2.2 = true) ∧
      (∀ e, cb.FailureThreshold ≤ cb.failureCount + 1 →
        (cb.Execute now (some e)).1 = some e ∧
        (cb.Execute now (some e)).2.1.state = .Open ∧
        (cb.Execute now (some e)).2.2 = true)) := by
  refine ⟨?_, ?_, ?_⟩
  · have h := execFailures_closed calls (NewCircuitBreaker threshold recovery)
      rfl (by simpa [NewCircuitBreaker] using h1)
      (by simp [NewCircuitBreaker, hlen])
    obtain ⟨hc, hs, hl, -, -⟩ := h
    refine ⟨?_, ?_, ?_⟩
    · rw [hs, if_pos (by simp [NewCircuitBreaker, hlen])]
    · rw [hc]
      simp [NewCircuitBreaker, hlen]
    · simpa [NewCircuitBreaker] using hl
  · intro cb now op hstate htime
    have hn : ¬ cb.RecoveryTimeout < now - cb.lastFailureTime := by omega
    simp [CircuitBreaker.Execute, hstate, hn]
  · intro cb now hstate htime
    constructor
    · simp [CircuitBreaker.Execute, hstate, htime, recordSuccess]
    · intro e hthr
      have hred : cb.Execute now (some e) =
          (some e, recordFailure { cb with state := CircuitBreakerState.HalfOpen } now,
            true) := by
        simp [CircuitBreaker.Execute, hstate, htime]
      rw [hred]
      refine ⟨rfl, ?_, rfl⟩
      simp only [recordFailure]
      rw [if_pos (by simpa using hthr)]

/-- Evaluation of `circuitBreaker_spec`: two failures trip a breaker with
threshold 2. -/
theorem circuitBreaker_spec_witness :
    (execFailures (NewCircuitBreaker 2 5) [(3, .msg "a"), (4, .msg "b")]).state =
        .Open ∧
    (execFailures (NewCircuitBreaker 2 5)
        [(3, .msg "a"), (4, .msg "b")]).failureCount = 2 ∧
    (execFailures (NewCircuitBreaker 2 5)
        [(3, .msg "a"), (4, .msg "b")]).lastFailureTime =
      ([(3, GoError.msg "a"), (4, GoError.msg "b")].map Prod.fst).getLastD 0 :=
  (circuitBreaker_spec 2 5 [(3, .msg "a"), (4, .msg "b")] (by norm_num) rfl).1

/-! ## Lemmas about the Saga orchestrator -/

theorem addBranchLoop_ok (env : SagaEnv) (hadd : ∀ i, env.addErr i = none) :
    ∀ (steps : List SagaStep) (a : Nat),
      addBranchLoop env steps a =
        (none, steps.map fun s => Call.addBranch s.BranchID) := by
  intro steps
  induction steps with
  | nil => intro a; rfl
  | cons s rest ih =>
    intro a
    simp only [addBranchLoop, hadd a, ih (a + 1), List.map_cons]

theorem addBranchLoop_fail (env : SagaEnv) (e : GoError) :
    ∀ (steps : List SagaStep) (a j : Nat) (hj : j < steps.length),
      (∀ i, i < j → env.addErr (a + i) = none) → env.addErr (a + j) = some e →
      addBranchLoop env steps a =
        (some (.wrap ("failed to add branch " ++ (steps.get ⟨j, hj⟩).BranchID) e),
          ((steps.take (j + 1)).map fun s => Call.addBranch s.BranchID) ++
            [.abortTx]) := by
  intro steps
  induction steps with
  | nil => intro a j hj; exact absurd hj (by simp)
  | cons s rest ih =>
    intro a j hj hok hfail
    cases j with
    | zero =>
      rw [show a + 0 = a from rfl] at hfail
      simp only [addBranchLoop, hfail, List.take_succ_cons, List.take_zero,
        List.map_cons, List.map_nil, List.get]
      rfl
    | succ j' =>
      have h0 : env.addErr a = none := by
        have := hok 0 (Nat.succ_pos j')
        rwa [show a + 0 = a from rfl] at this
      have hrec := ih (a + 1) j' (by simpa using Nat.lt_of_succ_lt_succ hj)
        (fun i hi => by
          have := hok (i + 1) (by omega)
          rwa [show a + (i + 1) = a + 1 + i by omega] at this)
        (by rwa [show a + 1 + j' = a + (j' + 1) by omega])
      simp only [addBranchLoop, h0, hrec, List.take_succ_cons, List.map_cons,
        List.get, List.cons_append]

theorem executeWithCompensation_aborted (env : SagaEnv) (steps : List SagaStep)
    (comp : SagaStep → Option GoError) (branches : List Branch) :
    ∀ (t fuel tick : Nat), t < fuel →
      (∀ k, k < t → ∃ bs, env.infos (tick + k) = .ok StatusSubmitted bs) →
      env.infos (tick + t) = .ok StatusAborted branches →
      executeWithCompensation env steps comp fuel tick =
        executeCompensation steps branches comp := by
  intro t
  induction t with
  | zero =>
    intro fuel tick hfuel _ habort
    rw [show tick + 0 = tick from rfl] at habort
    obtain ⟨f, rfl⟩ : ∃ f, fuel = f + 1 := ⟨fuel - 1, by omega⟩
    rw [executeWithCompensation, habort]
    show (if StatusAborted = StatusCommitted then ((none : Option GoError), ([] : List SagaStep))
      else if StatusAborted = StatusAborted then executeCompensation steps branches comp
      else if StatusAborted = StatusSubmitted then
        executeWithCompensation env steps comp f (tick + 1)
      else (some (.msg ("unknown transaction status: " ++ StatusAborted)), [])) =
      executeCompensation steps branches comp
    rw [if_neg (by decide), if_pos rfl]
  | succ t ih =>
    intro fuel tick hfuel hpoll habort
    obtain ⟨bs, hsub⟩ := by
      have := hpoll 0 (Nat.succ_pos t)
      rwa [show tick + 0 = tick from rfl] at this
    obtain ⟨f, rfl⟩ : ∃ f, fuel = f + 1 := ⟨fuel - 1, by omega⟩
    rw [executeWithCompensation, hsub]
    show (if StatusSubmitted = StatusCommitted then ((none : Option GoError), ([] : List SagaStep))
      else if StatusSubmitted = StatusAborted then executeCompensation steps bs comp
      else if StatusSubmitted = StatusSubmitted then
        executeWithCompensation env steps comp f (tick + 1)
      else (some (.msg ("unknown transaction status: " ++ StatusSubmitted)), [])) =
      executeCompensation steps branches comp
    rw [if_neg (by decide), if_neg (by decide), if_pos rfl]
    exact ih f (tick + 1) (by omega)
      (fun k hk => by
        have := hpoll (k + 1) (by omega)
        rwa [show tick + (k + 1) = tick + 1 + k by omega] at this)
      (by rwa [show tick + 1 + t = tick + (t + 1) by omega])

theorem executeCompensation_selected (steps : List SagaStep)
    (branches : List Branch) (comp : SagaStep → Option GoError) :
    (executeCompensation steps branches comp).2 =
      steps.reverse.filter (fun s => branchFailed branches s.BranchID) := rfl

theorem executeCompensation_mem (steps : List SagaStep) (branches : List Branch)
    (comp : SagaStep → Option GoError) (s : SagaStep) :
    s ∈ (executeCompensation steps branches comp).2 ↔
      s ∈ steps ∧ branchFailed branches s.BranchID = true := by
  rw [executeCompensation_selected, List.mem_filter, List.mem_reverse]

theorem executeCompensation_none_iff (steps : List SagaStep)
    (branches : List Branch) (comp : SagaStep → Option GoError) :
    (executeCompensation steps branches comp).1 = none ↔
      ∀ s ∈ (executeCompensation steps branches comp).2, comp s = none := by
  have h1 : (executeCompensation steps branches comp).1 =
      if ((steps.reverse.filter (fun s => branchFailed branches s.BranchID)).filterMap
          fun s => (comp s).map fun e0 =>
            GoError.wrap ("compensation failed for branch " ++ s.BranchID) e0).isEmpty
        then none
        else some (.agg "compensation failed"
          ((steps.reverse.filter (fun s => branchFailed branches s.BranchID)).filterMap
            fun s => (comp s).map fun e0 =>
              GoError.wrap ("compensation failed for branch " ++ s.BranchID) e0)) := rfl
  rw [h1, executeCompensation_selected]
  by_cases hempty : ((steps.reverse.filter
      (fun s => branchFailed branches s.BranchID)).filterMap fun s =>
        (comp s).map fun e0 =>
          GoError.wrap ("compensation failed for branch " ++ s.BranchID) e0).isEmpty
  · rw [if_pos hempty]
    constructor
    · intro _ s hs
      have hnil := List.isEmpty_iff.mp hempty
      have hm := List.filterMap_eq_nil_iff.mp hnil s hs
      exact Option.map_eq_none.mp hm
    · intro _
      rfl
  · rw [if_neg hempty]
    constructor
    · intro h
      exact absurd h (by simp)
    · intro hall
      exfalso
      have hne : ((steps.reverse.filter
          (fun s => branchFailed branches s.BranchID)).filterMap fun s =>
            (comp s).map fun e0 =>
              GoError.wrap ("compensation failed for branch " ++ s.BranchID) e0) ≠ [] := by
        intro hnil
        exact hempty (by rw [hnil]; rfl)
      rcases List.exists_mem_of_ne_nil _ hne with ⟨x, hx⟩
      rcases List.mem_filterMap.mp hx with ⟨s, hs, hsx⟩
      rw [hall s hs] at hsx
      simp at hsx

theorem executeCompensation_some (steps : List SagaStep) (branches : List Branch)
    (comp : SagaStep → Option GoError) (e : GoError)
    (he : (executeCompensation steps branches comp).1 = some e) :
    e = .agg "compensation failed"
      ((executeCompensation steps branches comp).2.filterMap fun s =>
        (comp s).map fun e0 =>
          .wrap ("compensation failed for branch " ++ s.BranchID) e0) := by
  have h1 : (executeCompensation steps branches comp).1 =
      if ((executeCompensation steps branches comp).2.filterMap
          fun s => (comp s).map fun e0 =>
            GoError.wrap ("compensation failed for branch " ++ s.BranchID) e0).isEmpty
        then none
        else some (.agg "compensation failed"
          ((executeCompensation steps branches comp).2.filterMap
            fun s => (comp s).map fun e0 =>
              GoError.wrap ("compensation failed for branch " ++ s.BranchID) e0)) := rfl
  rw [h1] at he
  by_cases hempty : ((executeCompensation steps branches comp).2.filterMap
      fun s => (comp s).map fun e0 =>
        GoError.wrap ("compensation failed for branch " ++ s.BranchID) e0).isEmpty
  · rw [if_pos hempty] at he
    exact absurd he (by simp)
  · rw [if_neg hempty] at he
    exact (Option.some_inj.mp he).symm

/-- Claim C1. For every Saga execution through
`ExecuteSagaWithCompensation` that observes status Aborted with a
caller-supplied compensation function and a coordinator-reported branch
list: the compensation function is invoked exactly once for each workflow
step whose branchId appears in the reported list with status Failed and
for no other step, steps being selected in reverse workflow-definition
order; all invocations are awaited, and the execution returns no error
when every compensation call succeeds and a single error aggregating all
compensation errors otherwise. -/
theorem executeSagaWithCompensation_spec (env : SagaEnv) (wf : SagaWorkflow)
    (comp : SagaStep → Option GoError) (branches : List Branch) (t fuel : Nat)
    (hstart : env.startErr = none) (hadd : ∀ i, env.addErr i = none)
    (hsubmit : env.submitErr = none) (ht : t < fuel)
    (hpoll : ∀ k, k < t → ∃ bs, env.infos k = .ok StatusSubmitted bs)
    (habort : env.infos t = .ok StatusAborted branches) :
    (ExecuteSagaWithCompensation env wf comp fuel).2 =
      wf.Steps.reverse.filter (fun s => branchFailed branches s.BranchID) ∧
    (∀ s, s ∈ (ExecuteSagaWithCompensation env wf comp fuel).2 ↔
      (s ∈ wf.Steps ∧ branchFailed branches s.BranchID = true)) ∧
    ((ExecuteSagaWithCompensation env wf comp fuel).1 = none ↔
      ∀ s ∈ (ExecuteSagaWithCompensation env wf comp fuel).2, comp s = none) ∧
    (∀ e, (ExecuteSagaWithCompensation env wf comp fuel).1 = some e →
      e = .agg "compensation failed"
        ((ExecuteSagaWithCompensation env wf comp fuel).2.filterMap fun s =>
          (comp s).map fun e0 =>
            .wrap ("compensation failed for branch " ++ s.BranchID) e0)) := by
  have hred : ExecuteSagaWithCompensation env wf comp fuel =
      executeCompensation wf.Steps branches comp := by
    unfold ExecuteSagaWithCompensation
    rw [hstart, addBranchLoop_ok env hadd wf.Steps 0, hsubmit]
    exact executeWithCompensation_aborted env wf.Steps comp branches t fuel 0 ht
      (fun k hk => by simpa using hpoll k hk) (by simpa using habort)
  refine ⟨?_, ?_, ?_, ?_⟩
  · rw [hred]
    exact executeCompensation_selected wf.Steps branches comp
  · intro s
    rw [hred]
    exact executeCompensation_mem wf.Steps branches comp s
  · rw [hred]
    exact executeCompensation_none_iff wf.Steps branches comp
  · intro e
    rw [hred]
    exact executeCompensation_some wf.Steps branches comp e

/-- Evaluation of `executeSagaWithCompensation_spec` on a two-step
workflow whose second branch is reported failed. -/
theorem executeSagaWithCompensation_spec_witness :
    (ExecuteSagaWithCompensation
        ⟨none, fun _ => none, none, none, fun k =>
          if k = 0 then .ok StatusSubmitted []
          else .ok StatusAborted [⟨"a", "ua", "SUCCEED"⟩, ⟨"b", "ub", "FAILED"⟩]⟩
        ⟨[⟨"a", "ua", "ca"⟩, ⟨"b", "ub", "cb"⟩]⟩ (fun _ => none) 3).2 =
      ([⟨"a", "ua", "ca"⟩, ⟨"b", "ub", "cb"⟩] : List SagaStep).reverse.filter
        (fun s => branchFailed [⟨"a", "ua", "SUCCEED"⟩, ⟨"b", "ub", "FAILED"⟩]
          s.BranchID) :=
  (executeSagaWithCompensation_spec
    ⟨none, fun _ => none, none, none, fun k =>
      if k = 0 then .ok StatusSubmitted []
      else .ok StatusAborted [⟨"a", "ua", "SUCCEED"⟩, ⟨"b", "ub", "FAILED"⟩]⟩
    ⟨[⟨"a", "ua", "ca"⟩, ⟨"b", "ub", "cb"⟩]⟩ (fun _ => none)
    [⟨"a", "ua", "SUCCEED"⟩, ⟨"b", "ub", "FAILED"⟩] 1 3
    rfl (fun _ => rfl) rfl (by norm_num)
    (fun k hk => by
      have hk0 : k = 0 := by omega
      subst hk0
      exact ⟨[], rfl⟩)
    rfl).1

theorem addBranchLoop_env_eq (e1 e2 : SagaEnv) (h : e1.addErr = e2.addErr) :
    ∀ (steps : List SagaStep) (a : Nat),
      addBranchLoop e1 steps a = addBranchLoop e2 steps a := by
  intro steps
  induction steps with
  | nil => intro a; rfl
  | cons s rest ih =>
    intro a
    simp only [addBranchLoop, h, ih]

theorem waitForCompletion_env_eq (e1 e2 : SagaEnv) (h : e1.infos = e2.infos) :
    ∀ (fuel tick : Nat),
      waitForCompletion e1 fuel tick = waitForCompletion e2 fuel tick := by
  intro fuel
  induction fuel with
  | zero => intro tick; rfl
  | succ f ih =>
    intro tick
    simp only [waitForCompletion, h, ih]

theorem executeSaga_env_eq (e1 e2 : SagaEnv) (hs : e1.startErr = e2.startErr)
    (ha : e1.addErr = e2.addErr) (hsub : e1.submitErr = e2.submitErr)
    (hi : e1.infos = e2.infos) (wf : SagaWorkflow) (fuel : Nat) :
    ExecuteSaga e1 wf fuel = ExecuteSaga e2 wf fuel := by
  unfold ExecuteSaga
  rw [hs, addBranchLoop_env_eq e1 e2 ha, hsub, waitForCompletion_env_eq e1 e2 hi]

/-- Claim C6. During `ExecuteSaga`, AddBranch is called for each workflow
step in definition order; on the first AddBranch failure the orchestrator
immediately calls Abort (an error from Abort itself is not escalated),
returns an error wrapping that AddBranch failure, registers no branch
after the failing one, and does not call Submit; and if Submit itself
fails, its error is returned as fatal and no polling occurs. -/
theorem executeSaga_error_paths (env : SagaEnv) (wf : SagaWorkflow) (fuel : Nat)
    (hstart : env.startErr = none) :
    (∀ j e (hj : j < wf.Steps.length), (∀ i, i < j → env.addErr i = none) →
      env.addErr j = some e →
      ExecuteSaga env wf fuel =
        (some (.wrap ("failed to add branch " ++ (wf.Steps.get ⟨j, hj⟩).BranchID) e),
          .startTx :: (((wf.Steps.take (j + 1)).map fun s =>
            Call.addBranch s.BranchID) ++ [.abortTx])) ∧
      Call.submitTx ∉ (ExecuteSaga env wf fuel).2 ∧
      Call.getInfo ∉ (ExecuteSaga env wf fuel).2) ∧
    (∀ x, ExecuteSaga { env with abortErr := x } wf fuel = ExecuteSaga env wf fuel) ∧
    (∀ e, (∀ i, env.addErr i = none) → env.submitErr = some e →
      ExecuteSaga env wf fuel =
        (some (.wrap "failed to submit saga transaction" e),
          .startTx :: ((wf.Steps.map fun s => Call.addBranch s.BranchID) ++
            [.submitTx])) ∧
      Call.getInfo ∉ (ExecuteSaga env wf fuel).2) := by
  refine ⟨?_, fun x => executeSaga_env_eq { env with abortErr := x } env rfl rfl rfl rfl wf fuel, ?_⟩
  · intro j e hj hok hfail
    have hloop := addBranchLoop_fail env e wf.Steps 0 j hj
      (fun i hi => by simpa using hok i hi) (by simpa using hfail)
    have hres : ExecuteSaga env wf fuel =
        (some (.wrap ("failed to add branch " ++ (wf.Steps.get ⟨j, hj⟩).BranchID) e),
          .startTx :: (((wf.Steps.take (j + 1)).map fun s =>
            Call.addBranch s.BranchID) ++ [.abortTx])) := by
      unfold ExecuteSaga
      rw [hstart, hloop]
    refine ⟨hres, ?_, ?_⟩
    · rw [hres]
      intro hmem
      rcases List.mem_cons.mp hmem with h | h
      · cases h
      · rcases List.mem_append.mp h with h2 | h2
        · rcases List.mem_map.mp h2 with ⟨s, -, hc⟩
          cases hc
        · cases List.mem_singleton.mp h2
    · rw [hres]
      intro hmem
      rcases List.mem_cons.mp hmem with h | h
      · cases h
      · rcases List.mem_append.mp h with h2 | h2
        · rcases List.mem_map.mp h2 with ⟨s, -, hc⟩
          cases hc
        · cases List.mem_singleton.mp h2
  · intro e hok hsub
    have hres : ExecuteSaga env wf fuel =
        (some (.wrap "failed to submit saga transaction" e),
          .startTx :: ((wf.Steps.map fun s => Call.addBranch s.BranchID) ++
            [.submitTx])) := by
      unfold ExecuteSaga
      rw [hstart, addBranchLoop_ok env hok wf.Steps 0, hsub]
      rfl
    refine ⟨hres, ?_⟩
    rw [hres]
    intro hmem
    rcases List.mem_cons.mp hmem with h | h
    · cases h
    · rcases List.mem_append.mp h with h2 | h2
      · rcases List.mem_map.mp h2 with ⟨s, -, hc⟩
        cases hc
      · cases List.mem_singleton.mp h2

/-- Evaluation of `executeSaga_error_paths`: the second AddBranch fails in
a two-step workflow; the trace stops at the abort. -/
theorem executeSaga_error_paths_witness :
    ExecuteSaga
      ⟨none, fun i => if i = 1 then some (.msg "boom") else none, none, none,
        fun _ => .ok StatusCommitted []⟩
      ⟨[⟨"a", "ua", "ca"⟩, ⟨"b", "ub", "cb"⟩]⟩ 3 =
    (some (.wrap "failed to add branch b" (.msg "boom")),
      [.startTx, .addBranch "a", .addBranch "b", .abortTx]) :=
  ((executeSaga_error_paths
    ⟨none, fun i => if i = 1 then some (.msg "boom") else none, none, none,
      fun _ => .ok StatusCommitted []⟩
    ⟨[⟨"a", "ua", "ca"⟩, ⟨"b", "ub", "cb"⟩]⟩ 3 rfl).1 1 (.msg "boom")
    (by norm_num)
    (fun i hi => by
      have hi0 : i = 0 := by omega
      subst hi0
      rfl)
    rfl).1

/-- Claim C5, counterexample. The claim says a zero-step workflow is
rejected at `Validate()` time before any remote call, with no
StartTransaction issued.  On the code, `ExecuteSaga` never calls
`Validate`: for the empty workflow it issues StartTransaction (and
Submit), and completes without any validation error. -/
theorem executeSaga_no_validation_counterexample :
    (SagaWorkflow.Validate ⟨[]⟩).isSome = true ∧
    ExecuteSaga ⟨none, fun _ => none, none, none, fun _ => .ok StatusCommitted []⟩
        ⟨[]⟩ 1 = (none, [.startTx, .submitTx, .getInfo]) ∧
    Call.startTx ∈ (ExecuteSaga
        ⟨none, fun _ => none, none, none, fun _ => .ok StatusCommitted []⟩
        ⟨[]⟩ 1).2 := by
  refine ⟨rfl, rfl, ?_⟩
  have h : (ExecuteSaga
      ⟨none, fun _ => none, none, none, fun _ => .ok StatusCommitted []⟩
      ⟨[]⟩ 1).2 = [.startTx, .submitTx, .getInfo] := rfl
  rw [h]
  exact List.mem_cons_self _ _

theorem executeSaga_first_call (env : SagaEnv) (wf : SagaWorkflow) (fuel : Nat) :
    (ExecuteSaga env wf fuel).2.head? = some .startTx := by
  unfold ExecuteSaga
  cases hs : env.startErr with
  | some e => rfl
  | none =>
    rcases hp : addBranchLoop env wf.Steps 0 with ⟨r, calls⟩
    cases r with
    | some e => rfl
    | none =>
      cases hsub : env.submitErr with
      | some e => rfl
      | none => rfl

theorem executeTCC_first_call (env : TCCEnv) (wf : TCCWorkflow)
    (opts : ExecutionOptions) (oT oC : List Nat) :
    (ExecuteTCC env wf opts oT oC).2.head? = some .startTx := by
  unfold ExecuteTCC
  cases hs : env.startErr with
  | some e => rfl
  | none =>
    rcases hp : executeTryPhase env wf.Steps opts oT with ⟨r, tcalls⟩
    cases r with
    | some e => rfl
    | none =>
      rcases hq : executeConfirmPhase env wf.Steps opts oC with ⟨r2, ccalls⟩
      cases r2 with
      | some e => rfl
      | none => rfl

/-- Claim C5, amended. `Validate()` does reject a zero-step or
duplicate-branchId workflow, but `ExecuteSaga` and `ExecuteTCC` never
invoke `Validate`: their first remote call is always StartTransaction,
whatever the workflow, so rejection before any remote call happens only
when the caller runs `Validate` itself (as the repository examples do). -/
theorem validate_not_called_amended (wf : SagaWorkflow) (tw : TCCWorkflow)
    (env : SagaEnv) (tenv : TCCEnv) (opts : ExecutionOptions)
    (oT oC : List Nat) (fuel : Nat)
    (hwf : wf.Steps = [] ∨ ¬(wf.Steps.map SagaStep.BranchID).Nodup)
    (htw : tw.Steps = [] ∨ ¬(tw.Steps.map TCCStep.BranchID).Nodup) :
    (SagaWorkflow.Validate wf).isSome = true ∧
    (TCCWorkflow.Validate tw).isSome = true ∧
    (ExecuteSaga env wf fuel).2.head? = some .startTx ∧
    (ExecuteTCC tenv tw opts oT oC).2.head? = some .startTx := by
  refine ⟨?_, ?_, executeSaga_first_call env wf fuel,
    executeTCC_first_call tenv tw opts oT oC⟩
  · cases hv : SagaWorkflow.Validate wf with
    | some e => rfl
    | none =>
      exfalso
      have hwff := (sagaValidate_none_iff wf).mp hv
      rcases hwf with h | h
      · exact hwff.1 h
      · exact h hwff.2.2
  · cases hv : TCCWorkflow.Validate tw with
    | some e => rfl
    | none =>
      exfalso
      have htwf := (tccValidate_none_iff tw).mp hv
      rcases htw with h | h
      · exact htwf.1 h
      · exact h htwf.2.2

/-- Evaluation of `validate_not_called_amended` on the empty Saga workflow
and a duplicate-id TCC workflow. -/
theorem validate_not_called_amended_witness :
    (SagaWorkflow.Validate ⟨[]⟩).isSome = true ∧
    (TCCWorkflow.Validate
      ⟨[⟨"a", "t", "c", "x"⟩, ⟨"a", "t2", "c2", "x2"⟩]⟩).isSome = true ∧
    (ExecuteSaga ⟨none, fun _ => none, none, none, fun _ => .ok StatusCommitted []⟩
      ⟨[]⟩ 1).2.head? = some .startTx ∧
    (ExecuteTCC ⟨none, fun _ => none, fun _ => none, fun _ => none⟩
      ⟨[⟨"a", "t", "c", "x"⟩, ⟨"a", "t2", "c2", "x2"⟩]⟩ ⟨false, 1⟩
      [] []).2.head? = some .startTx :=
  validate_not_called_amended ⟨[]⟩
    ⟨[⟨"a", "t", "c", "x"⟩, ⟨"a", "t2", "c2", "x2"⟩]⟩
    ⟨none, fun _ => none, none, none, fun _ => .ok StatusCommitted []⟩
    ⟨none, fun _ => none, fun _ => none, fun _ => none⟩ ⟨false, 1⟩ [] [] 1
    (Or.inl rfl) (Or.inr (by decide))

/-! ## Lemmas about the TCC orchestrator -/

theorem executeTryPhaseSequential_none_iff (env : TCCEnv) :
    ∀ (steps : List TCCStep) (a : Nat),
      (executeTryPhaseSequential env steps a).1 = none ↔
        ∀ i, i < steps.length → env.tryErr (a + i) = none := by
  intro steps
  induction steps with
  | nil =>
    intro a
    simp [executeTryPhaseSequential]
  | cons s rest ih =>
    intro a
    cases h : env.tryErr a with
    | some e =>
      simp only [executeTryPhaseSequential, h]
      constructor
      · intro hc
        exact absurd hc (by simp)
      · intro hall
        have h0 := hall 0 (by simp)
        rw [show a + 0 = a from rfl, h] at h0
        exact absurd h0 (by simp)
    | none =>
      simp only [executeTryPhaseSequential, h]
      rw [ih (a + 1)]
      constructor
      · intro hall i hi
        cases i with
        | zero =>
          rw [show a + 0 = a from rfl]
          exact h
        | succ i' =>
          have := hall i' (by simpa using Nat.lt_of_succ_lt_succ hi)
          rwa [show a + 1 + i' = a + (i' + 1) by omega] at this
      · intro hall i hi
        have := hall (i + 1) (by simpa using Nat.succ_lt_succ hi)
        rwa [show a + (i + 1) = a + 1 + i by omega] at this

theorem executeTryPhaseParallel_none_iff (env : TCCEnv) (steps : List TCCStep)
    (order : List Nat) (hperm : order.Perm (List.range steps.length)) :
    (executeTryPhaseParallel env steps order).1 = none ↔
      ∀ i, i < steps.length → env.tryErr i = none := by
  have h1 : (executeTryPhaseParallel env steps order).1 =
      (order.filterMap fun i =>
        match steps.get? i, env.tryErr i with
        | some s, some e =>
          some (GoError.wrap ("try phase failed for branch " ++ s.BranchID) e)
        | _, _ => none).head? := rfl
  rw [h1, List.head?_eq_none_iff, List.filterMap_eq_nil_iff]
  constructor
  · intro hall i hi
    have hio : i ∈ order := hperm.mem_iff.mpr (List.mem_range.mpr hi)
    have hm := hall i hio
    rcases hg : steps.get? i with _ | s
    · rw [List.get?_eq_none] at hg
      omega
    · rw [hg] at hm
      cases ht : env.tryErr i with
      | none => rfl
      | some e =>
        rw [ht] at hm
        exact absurd hm (by simp)
  · intro hall i hio
    have hi : i < steps.length := List.mem_range.mp (hperm.mem_iff.mp hio)
    obtain ⟨s, hg⟩ : ∃ s, steps.get? i = some s := by
      rcases hx : steps.get? i with _ | s
      · rw [List.get?_eq_none] at hx
        omega
      · exact ⟨s, rfl⟩
    rw [hg, hall i hi]

theorem executeConfirmPhaseSequential_none_iff (env : TCCEnv) :
    ∀ (steps : List TCCStep) (a : Nat),
      (executeConfirmPhaseSequential env steps a).1 = none ↔
        ∀ i, i < steps.length → env.confirmErr (a + i) = none := by
  intro steps
  induction steps with
  | nil =>
    intro a
    simp [executeConfirmPhaseSequential]
  | cons s rest ih =>
    intro a
    cases h : env.confirmErr a with
    | some e =>
      simp only [executeConfirmPhaseSequential, h]
      constructor
      · intro hc
        exact absurd hc (by simp)
      · intro hall
        have h0 := hall 0 (by simp)
        rw [show a + 0 = a from rfl, h] at h0
        exact absurd h0 (by simp)
    | none =>
      simp only [executeConfirmPhaseSequential, h]
      rw [ih (a + 1)]
      constructor
      · intro hall i hi
        cases i with
        | zero =>
          rw [show a + 0 = a from rfl]
          exact h
        | succ i' =>
          have := hall i' (by simpa using Nat.lt_of_succ_lt_succ hi)
          rwa [show a + 1 + i' = a + (i' + 1) by omega] at this
      · intro hall i hi
        have := hall (i + 1) (by simpa using Nat.succ_lt_succ hi)
        rwa [show a + (i + 1) = a + 1 + i by omega] at this

theorem executeTryPhaseSequential_env_eq (e1 e2 : TCCEnv)
    (h : e1.tryErr = e2.tryErr) :
    ∀ (steps : List TCCStep) (a : Nat),
      executeTryPhaseSequential e1 steps a = executeTryPhaseSequential e2 steps a := by
  intro steps
  induction steps with
  | nil => intro a; rfl
  | cons s rest ih =>
    intro a
    simp only [executeTryPhaseSequential, h, ih]

theorem executeConfirmPhaseSequential_env_eq (e1 e2 : TCCEnv)
    (h : e1.confirmErr = e2.confirmErr) :
    ∀ (steps : List TCCStep) (a : Nat),
      executeConfirmPhaseSequential e1 steps a =
        executeConfirmPhaseSequential e2 steps a := by
  intro steps
  induction steps with
  | nil => intro a; rfl
  | cons s rest ih =>
    intro a
    simp only [executeConfirmPhaseSequential, h, ih]

theorem executeTryPhase_env_eq (e1 e2 : TCCEnv) (h : e1.tryErr = e2.tryErr)
    (steps : List TCCStep) (opts : ExecutionOptions) (order : List Nat) :
    executeTryPhase e1 steps opts order = executeTryPhase e2 steps opts order := by
  unfold executeTryPhase
  by_cases hp : opts.ParallelBranches
  · rw [if_pos hp]
    rw [if_pos hp]
    unfold executeTryPhaseParallel
    rw [h]
  · rw [if_neg hp, if_neg hp]
    exact executeTryPhaseSequential_env_eq e1 e2 h steps 0

theorem executeConfirmPhase_env_eq (e1 e2 : TCCEnv)
    (h : e1.confirmErr = e2.confirmErr) (steps : List TCCStep)
    (opts : ExecutionOptions) (order : List Nat) :
    executeConfirmPhase e1 steps opts order =
      executeConfirmPhase e2 steps opts order := by
  unfold executeConfirmPhase
  by_cases hp : opts.ParallelBranches
  · rw [if_pos hp, if_pos hp]
    unfold executeConfirmPhaseParallel
    rw [h]
  · rw [if_neg hp, if_neg hp]
    exact executeConfirmPhaseSequential_env_eq e1 e2 h steps 0

theorem executeTCC_env_eq (e1 e2 : TCCEnv) (hs : e1.startErr = e2.startErr)
    (ht : e1.tryErr = e2.tryErr) (hc : e1.confirmErr = e2.confirmErr)
    (wf : TCCWorkflow) (opts : ExecutionOptions) (oT oC : List Nat) :
    ExecuteTCC e1 wf opts oT oC = ExecuteTCC e2 wf opts oT oC := by
  unfold ExecuteTCC
  rw [hs, executeTryPhase_env_eq e1 e2 ht wf.Steps opts oT,
    executeConfirmPhase_env_eq e1 e2 hc wf.Steps opts oC]

/-- Claim C2. For every TCC execution in which some Try call fails, or in
which all Try calls succeed and some Confirm call fails: Cancel is issued
for every branch in the workflow (not only those whose Try succeeded),
every individual Cancel error is discarded and never escalated (the result
is invariant under the Cancel outcomes), and the value returned to the
caller is the original Try (respectively Confirm) failure wrapped with
phase context.  The final conjuncts record that the try phase reports
success exactly when no attempted Try failed. -/
theorem executeTCC_spec (env : TCCEnv) (wf : TCCWorkflow)
    (opts : ExecutionOptions) (oT oC : List Nat)
    (hstart : env.startErr = none) :
    (∀ e, (executeTryPhase env wf.Steps opts oT).1 = some e →
      ExecuteTCC env wf opts oT oC =
        (some (.wrap "TCC try phase failed" e),
          .startTx :: (executeTryPhase env wf.Steps opts oT).2 ++
            executeCancelPhase wf.Steps) ∧
      ∀ s ∈ wf.Steps, Call.cancelB s.BranchID ∈ (ExecuteTCC env wf opts oT oC).2) ∧
    (∀ e, (executeTryPhase env wf.Steps opts oT).1 = none →
      (executeConfirmPhase env wf.Steps opts oC).1 = some e →
      ExecuteTCC env wf opts oT oC =
        (some (.wrap "TCC confirm phase failed" e),
          .startTx :: (executeTryPhase env wf.Steps opts oT).2 ++
            (executeConfirmPhase env wf.Steps opts oC).2 ++
            executeCancelPhase wf.Steps) ∧
      ∀ s ∈ wf.Steps, Call.cancelB s.BranchID ∈ (ExecuteTCC env wf opts oT oC).2) ∧
    (∀ cErr, ExecuteTCC { env with cancelErr := cErr } wf opts oT oC =
      ExecuteTCC env wf opts oT oC) ∧
    (opts.ParallelBranches = true → oT.Perm (List.range wf.Steps.length) →
      ((executeTryPhase env wf.Steps opts oT).1 = none ↔
        ∀ i, i < wf.Steps.length → env.tryErr i = none)) ∧
    (opts.ParallelBranches = false →
      ((executeTryPhase env wf.Steps opts oT).1 = none ↔
        ∀ i, i < wf.Steps.length → env.tryErr i = none)) := by
  refine ⟨?_, ?_,
    fun cErr => executeTCC_env_eq { env with cancelErr := cErr } env rfl rfl rfl
      wf opts oT oC, ?_, ?_⟩
  · intro e he
    rcases hp : executeTryPhase env wf.Steps opts oT with ⟨r, tcalls⟩
    rw [hp] at he
    have hr : r = some e := he
    subst hr
    have hres : ExecuteTCC env wf opts oT oC =
        (some (.wrap "TCC try phase failed" e),
          .startTx :: tcalls ++ executeCancelPhase wf.Steps) := by
      unfold ExecuteTCC
      rw [hstart, hp]
    constructor
    · exact hres
    · intro s hs
      rw [hres]
      exact List.mem_cons_of_mem _
        (List.mem_append_right _ (List.mem_map_of_mem _ hs))
  · intro e ht hc
    rcases hp : executeTryPhase env wf.Steps opts oT with ⟨r, tcalls⟩
    rw [hp] at ht
    have hr : r = none := ht
    subst hr
    rcases hq : executeConfirmPhase env wf.Steps opts oC with ⟨r2, ccalls⟩
    rw [hq] at hc
    have hr2 : r2 = some e := hc
    subst hr2
    have hres : ExecuteTCC env wf opts oT oC =
        (some (.wrap "TCC confirm phase failed" e),
          .startTx :: tcalls ++ ccalls ++ executeCancelPhase wf.Steps) := by
      unfold ExecuteTCC
      rw [hstart, hp, hq]
    constructor
    · exact hres
    · intro s hs
      rw [hres]
      exact List.mem_cons_of_mem _
        (List.mem_append_right _ (List.mem_map_of_mem _ hs))
  · intro hpar hperm
    have hdisp : executeTryPhase env wf.Steps opts oT =
        executeTryPhaseParallel env wf.Steps oT := by
      unfold executeTryPhase
      rw [if_pos hpar]
    rw [hdisp]
    exact executeTryPhaseParallel_none_iff env wf.Steps oT hperm
  · intro hpar
    have hdisp : executeTryPhase env wf.Steps opts oT =
        executeTryPhaseSequential env wf.Steps 0 := by
      unfold executeTryPhase
      rw [if_neg (by simp [hpar])]
    rw [hdisp, executeTryPhaseSequential_none_iff env wf.Steps 0]
    constructor
    · intro hall i hi
      simpa using hall i hi
    · intro hall i hi
      simpa using hall i hi

/-- Evaluation of `executeTCC_spec`: a sequential two-branch workflow
whose first Try fails cancels both branches and surfaces the wrapped Try
failure. -/
theorem executeTCC_spec_witness :
    ExecuteTCC
      ⟨none, fun i => if i = 0 then some (.msg "x") else none,
        fun _ => none, fun _ => none⟩
      ⟨[⟨"a", "ta", "ca", "xa"⟩, ⟨"b", "tb", "cb", "xb"⟩]⟩ ⟨false, 1⟩ [] [] =
    (some (.wrap "TCC try phase failed"
        (.wrap "try phase failed for branch a" (.msg "x"))),
      [.startTx, .tryB "a", .cancelB "a", .cancelB "b"]) :=
  ((executeTCC_spec
    ⟨none, fun i => if i = 0 then some (.msg "x") else none,
      fun _ => none, fun _ => none⟩
    ⟨[⟨"a", "ta", "ca", "xa"⟩, ⟨"b", "tb", "cb", "xb"⟩]⟩ ⟨false, 1⟩ [] [] rfl).1
    (.wrap "try phase failed for branch a" (.msg "x")) rfl).1

end Seata
